import Mathlib

/-!
# Verification of the Inspector automation engine

A shallow embedding of `inspector.py` (class `InspectorEngine`) and proofs
about its finding-harvesting pipeline: CVE-identifier classification,
token-driven pagination, report extraction, rule-package resolution, event
subscription, CVE-feed enrichment, and the JSON report file.

Remote collaborators (the assessment service, the EC2 tagging API, the HTTP
feed service) are modelled as explicit function parameters; the engine's code
is translated statement by statement.  Python exceptions are modelled by
`Except PyErr`; Python dicts by association lists (whose keys are unique in
any value a Python program can build).
-/

/-- The Python exceptions the translated code can raise. -/
inductive PyErr where
  /-- `KeyError`: `finding[key]` with `key` absent from the dict. -/
  | keyError (key : String)
  /-- `TypeError`: e.g. `re.match(pattern, None)`. -/
  | typeError
  /-- `AttributeError`: e.g. `None.items()` after a failed `dict.get`. -/
  | attributeError
  /-- An exception raised by `requests.get` (transport failure). -/
  | requestsError
  /-- `json.JSONDecodeError` from `json.loads` on a malformed body. -/
  | jsonError
  /-- Model artifact: the page list given to the pagination loop ran dry while
      the loop still wanted another page.  The Python loop has no iteration
      bound, so a misbehaving service makes it spin; a finite page list plus
      this error is how the unbounded `while True` is embedded. -/
  | noMorePages
  deriving DecidableEq, Repr

/-! ## The CVE-identifier regex

`inspector.py` line 100:
`cvepattern = re.compile('^(CVE-(1999|2\\d{3})-(0\\d{2}[1-9]|[1-9]\\d{3,}))$')`
used as `re.match(cvepattern, finding_id)`.

Both anchors are present, so `re.match` succeeds exactly on language
membership.  Python's `$` (without `re.MULTILINE`) also matches just before a
newline that ends the string, so `"CVE-2021-12345\n"` is accepted as well;
`cveRegexMatch` reproduces that. -/

/-- The inclusive code-point ranges of Unicode general category Nd (decimal
    digits): what `\d` matches in a CPython `str` pattern compiled without
    `re.ASCII` — the pattern at line 100 is such a pattern, so its `\d` is
    wider than ASCII `[0-9]`.  Table of Unicode 14.0 (CPython 3.11); every
    range is a run of ten digits `0`-`9` of one script, except the
    mathematical digits at 1D7CE-1D7FF, five consecutive such runs. -/
def ndRanges : List (Nat × Nat) :=
  [(48, 57), (1632, 1641), (1776, 1785), (1984, 1993), (2406, 2415),
   (2534, 2543), (2662, 2671), (2790, 2799), (2918, 2927), (3046, 3055),
   (3174, 3183), (3302, 3311), (3430, 3439), (3558, 3567), (3664, 3673),
   (3792, 3801), (3872, 3881), (4160, 4169), (4240, 4249), (6112, 6121),
   (6160, 6169), (6470, 6479), (6608, 6617), (6784, 6793), (6800, 6809),
   (6992, 7001), (7088, 7097), (7232, 7241), (7248, 7257), (42528, 42537),
   (43216, 43225), (43264, 43273), (43472, 43481), (43504, 43513),
   (43600, 43609), (44016, 44025), (65296, 65305), (66720, 66729),
   (68912, 68921), (69734, 69743), (69872, 69881), (69942, 69951),
   (70096, 70105), (70384, 70393), (70736, 70745), (70864, 70873),
   (71248, 71257), (71360, 71369), (71472, 71481), (71904, 71913),
   (72016, 72025), (72784, 72793), (73040, 73049), (73120, 73129),
   (92768, 92777), (92864, 92873), (93008, 93017), (120782, 120831),
   (123200, 123209), (123632, 123641), (125264, 125273), (130032, 130041)]

/-- `\d` of the regex: any Unicode decimal digit (category Nd). -/
def isRegexDigit (c : Char) : Bool :=
  ndRanges.any (fun r => r.1 ≤ c.toNat && c.toNat ≤ r.2)

/-- An ASCII decimal digit: what `\d` means inside `json.loads` number
    tokens (CPython's JSON scanner accepts only ASCII digits there), and the
    digit class of the claim's own reading of the pattern. -/
def isDigitCh (c : Char) : Bool := '0' ≤ c && c ≤ '9'

/-- `[1-9]` of the regex: an explicit ASCII character range, Unicode digits
    of other scripts are outside it. -/
def isPosDigit (c : Char) : Bool := '1' ≤ c && c ≤ '9'

/-- The year alternative `(1999|2\d{3})`, on exactly the four year
    characters: the literal `1999`, or the literal `2` and three `\d`. -/
def yearAlt : List Char → Bool
  | ['1', '9', '9', '9'] => true
  | ['2', a, b, c] => isRegexDigit a && isRegexDigit b && isRegexDigit c
  | _ => false

/-- The sequence-number alternative `(0\d{2}[1-9]|[1-9]\d{3,})`, on the whole
    remainder after the second dash (anchored, so nothing may follow). -/
def seqAlt : List Char → Bool
  | ['0', a, b, c] => isRegexDigit a && isRegexDigit b && isPosDigit c
  | c :: rest => isPosDigit c && decide (3 ≤ rest.length) && rest.all isRegexDigit
  | [] => false

/-- Membership in the language of the pattern body
    `CVE-(1999|2\d{3})-(0\d{2}[1-9]|[1-9]\d{3,})`.  Both year alternatives are
    exactly four characters long and are followed by a literal dash, so the
    split into year and sequence number is forced. -/
def cveCore : List Char → Bool
  | 'C' :: 'V' :: 'E' :: '-' :: y1 :: y2 :: y3 :: y4 :: '-' :: seq =>
      yearAlt [y1, y2, y3, y4] && seqAlt seq
  | _ => false

/-- `re.match(cvepattern, s)` succeeds: the whole string matches, or the whole
    string minus one final newline (Python `$` semantics). -/
def cveRegexMatch (s : String) : Bool :=
  cveCore s.data ||
    (match s.data.getLast? with
     | some '\n' => cveCore s.data.dropLast
     | _ => false)

/-! ## JSON values

The value space shared by `json.loads` (feed bodies) and `json.dump` (the
report file).  Python `None` is `Jval.null`; numbers are restricted to
integers (no value the engine builds contains a float, and the feed model
below only needs some value space for parsed bodies). -/

/-- A Python value in the image of `json.loads` / the domain of `json.dump`.
    Objects are ordered key/value lists: the embedding of a Python dict, whose
    keys are necessarily distinct. -/
inductive Jval where
  | null
  | bool (b : Bool)
  | int (n : Int)
  | str (s : String)
  | arr (elements : List Jval)
  | obj (members : List (String × Jval))

/-- Equality on `Jval` is decidable (spelled out because `deriving` does not
    handle the nesting through `List`). -/
def Jval.beq : Jval → Jval → Bool
  | .null, .null => true
  | .bool a, .bool b => a = b
  | .int a, .int b => a = b
  | .str a, .str b => a = b
  | .arr a, .arr b => beqList a b
  | .obj a, .obj b => beqMembers a b
  | _, _ => false
where
  beqList : List Jval → List Jval → Bool
    | [], [] => true
    | x :: xs, y :: ys => Jval.beq x y && beqList xs ys
    | _, _ => false
  beqMembers : List (String × Jval) → List (String × Jval) → Bool
    | [], [] => true
    | (k, x) :: xs, (l, y) :: ys => k = l && Jval.beq x y && beqMembers xs ys
    | _, _ => false

theorem Jval.beqList_iff (xs ys : List Jval)
    (h : ∀ x ∈ xs, ∀ b : Jval, Jval.beq x b = true ↔ x = b) :
    Jval.beq.beqList xs ys = true ↔ xs = ys := by
  induction xs generalizing ys with
  | nil => cases ys <;> simp [Jval.beq.beqList]
  | cons x xs ih =>
    cases ys with
    | nil => simp [Jval.beq.beqList]
    | cons y ys =>
      have hx := h x (by simp)
      have htail := ih ys (fun z hz b => h z (by simp [hz]) b)
      simp [Jval.beq.beqList, hx, htail]

theorem Jval.beqMembers_iff (xs ys : List (String × Jval))
    (h : ∀ x ∈ xs, ∀ b : Jval, Jval.beq x.2 b = true ↔ x.2 = b) :
    Jval.beq.beqMembers xs ys = true ↔ xs = ys := by
  induction xs generalizing ys with
  | nil => cases ys <;> simp [Jval.beq.beqMembers]
  | cons x xs ih =>
    cases ys with
    | nil => obtain ⟨k, v⟩ := x; simp [Jval.beq.beqMembers]
    | cons y ys =>
      obtain ⟨k, v⟩ := x
      obtain ⟨l, w⟩ := y
      have hv := h (k, v) (by simp)
      have htail := ih ys (fun z hz b => h z (by simp [hz]) b)
      simp [Jval.beq.beqMembers, hv, htail, and_assoc]

theorem Jval.beq_iff : ∀ a b : Jval, Jval.beq a b = true ↔ a = b
  | .null, b => by cases b <;> simp [Jval.beq]
  | .bool x, b => by cases b <;> simp [Jval.beq]
  | .int x, b => by cases b <;> simp [Jval.beq]
  | .str x, b => by cases b <;> simp [Jval.beq]
  | .arr xs, b => by
      cases b <;> simp [Jval.beq]
      case arr ys =>
        exact Jval.beqList_iff xs ys (fun x hx b =>
          have : sizeOf x < 1 + sizeOf xs :=
            Nat.lt_trans (List.sizeOf_lt_of_mem hx) (by omega)
          Jval.beq_iff x b)
  | .obj ms, b => by
      cases b <;> simp [Jval.beq]
      case obj ns =>
        exact Jval.beqMembers_iff ms ns (fun x hx b =>
          have : sizeOf x.2 < 1 + sizeOf ms := by
            have h1 := List.sizeOf_lt_of_mem hx
            obtain ⟨k, v⟩ := x
            simp at h1 ⊢
            omega
          Jval.beq_iff x.2 b)
  termination_by a _ => sizeOf a

instance : DecidableEq Jval := fun a b =>
  decidable_of_iff (Jval.beq a b = true) (Jval.beq_iff a b)

/-! ## Python dicts and the data model of the harvester -/

/-- `d.get(k)` / `d[k]` on a Python dict embedded as an ordered association
    list (first match; a dict built by Python has distinct keys anyway). -/
def alistGet {α : Type} (d : List (String × α)) (k : String) : Option α :=
  match d with
  | [] => none
  | (k', v) :: rest => if k' = k then some v else alistGet rest k

/-- One detailed finding as returned by `describe_findings`: a dict.  The
    fields the engine reads (`id`, `title`, `description`, `severity`,
    `recommendation`) are strings, so string values suffice. -/
abbrev Finding := List (String × String)

/-- `report_keys = ["title", "description", "severity", "recommendation"]`
    (line 94). -/
def report_keys : List String := ["title", "description", "severity", "recommendation"]

/-- The loop `for key in report_keys: report[key] = finding[key]`
    (lines 115-116): builds the `report` dict in key order, raising `KeyError`
    at the first key absent from the finding. -/
def extractReport (finding : Finding) : List String → Except PyErr (List (String × String))
  | [] => .ok []
  | k :: ks =>
    match alistGet finding k with
    | none => .error (.keyError k)
    | some v => (extractReport finding ks).map (fun rest => (k, v) :: rest)

/-- One record appended to `data` (lines 117-121): `{id, report, feeds}` when
    the finding id matched the CVE pattern, `{id, report}` otherwise. -/
inductive Record where
  | plain (id : String) (report : List (String × String))
  | enriched (id : String) (report : List (String × String)) (feeds : Jval)
  deriving DecidableEq

/-- The body of `for finding in findings` (lines 112-121) for one finding.
    `finding.get('id')` first (no error when absent), then the report
    extraction (`KeyError` on a missing report key), then
    `re.match(cvepattern, finding_id)`, which raises `TypeError` when
    `finding_id` is `None`.  `feedsFn` is `self.get_feeds`, which may itself
    raise. -/
def processFinding (feedsFn : String → Except PyErr Jval) (finding : Finding) :
    Except PyErr Record :=
  let finding_id := alistGet finding "id"
  match extractReport finding report_keys with
  | .error e => .error e
  | .ok report =>
    match finding_id with
    | none => .error .typeError
    | some fid =>
      if cveRegexMatch fid then
        match feedsFn fid with
        | .error e => .error e
        | .ok feed => .ok (.enriched fid report feed)
      else
        .ok (.plain fid report)

/-- The whole `for finding in findings` loop: findings in page order, first
    raised exception aborts everything. -/
def processFindings (feedsFn : String → Except PyErr Jval) :
    List Finding → Except PyErr (List Record)
  | [] => .ok []
  | f :: fs =>
    match processFinding feedsFn f with
    | .error e => .error e
    | .ok r => (processFindings feedsFn fs).map (fun rest => r :: rest)

/-- One response of the `list_findings` operation: the optional `nextToken`
    and the page's `findingArns`. -/
structure Page where
  nextToken : Option String
  findingArns : List String
  deriving DecidableEq

/-- Truthiness of `nexttoken` in `if nexttoken:` / `if not nexttoken:`
    (lines 103, 122): `None` and the empty string are falsy; every other
    string is truthy. -/
def tokenTruthy : Option String → Bool
  | none => false
  | some t => t ≠ ""

/-- The `nextToken` argument the `list_findings` call receives (line 103-106):
    present exactly when the current `nexttoken` is truthy. -/
def listArg (tok : Option String) : Option String :=
  match tok with
  | none => none
  | some t => if t = "" then none else some t

/-- Everything observable about one `pull_list_finding` run: the `nextToken`
    argument of each `list_findings` call (`none` = argument omitted), the
    argument pair of each `describe_findings` call, and the returned `data`. -/
structure HarvestTrace where
  listCalls : List (Option String)
  describeCalls : List (List String × String)
  data : List Record
  deriving DecidableEq

/-- The `while True` loop of `pull_list_finding` (lines 102-123), embedded on
    the sequence of pages the service hands back to the successive
    `list_findings` calls.  `describe` is the service's `describe_findings`
    restricted to its `findingArns` argument (its `locale` argument is
    recorded in the trace).  Each iteration consumes one page; `nexttoken` is
    the current token.  The Python loop is unbounded, so a run that exhausts
    the given page list while its token is still truthy ends in the
    model-artifact error `PyErr.noMorePages`. -/
def pullLoop (describe : List String → List Finding)
    (feedsFn : String → Except PyErr Jval) (tok : Option String) :
    List Page → Except PyErr HarvestTrace
  | [] => .error .noMorePages
  | page :: rest =>
    let call := listArg tok
    let nexttoken := page.nextToken
    let dcall := (page.findingArns, "EN_US")
    match processFindings feedsFn (describe page.findingArns) with
    | .error e => .error e
    | .ok recs =>
      if tokenTruthy nexttoken then
        match pullLoop describe feedsFn nexttoken rest with
        | .error e => .error e
        | .ok tr =>
          .ok ⟨call :: tr.listCalls, dcall :: tr.describeCalls, recs ++ tr.data⟩
      else
        .ok ⟨[call], [dcall], recs⟩

/-- `pull_list_finding` (lines 86-124): the loop started with
    `nexttoken = None`. -/
def pull_list_finding (describe : List String → List Finding)
    (feedsFn : String → Except PyErr Jval) (pages : List Page) :
    Except PyErr HarvestTrace :=
  pullLoop describe feedsFn none pages

/-! ## Rule-package resolution and event subscription -/

/-- The shape of `RULE_MAP` (imported from `constants`): an ordered mapping
    region → ordered mapping rule name → rule-package ARN.  The concrete
    table is configuration data; the resolver is verified for every table. -/
abbrev RuleMap := List (String × List (String × String))

/-- `get_rulepackagearns` (lines 42-49):
    `[value for rule, value in RULE_MAP.get(region).items()]`.
    For a known region this lists the ARNs in the inner dict's insertion
    order; for an unknown region `RULE_MAP.get(region)` is `None` and
    `None.items()` raises `AttributeError`. -/
def get_rulepackagearns (ruleMap : RuleMap) (region : String) :
    Except PyErr (List String) :=
  match alistGet ruleMap region with
  | none => .error .attributeError
  | some rules => .ok (rules.map (fun rv => rv.2))

/-- One `inspector.subscribe_to_event(...)` call (line 84). -/
structure SubscribeCall where
  resourceArn : String
  event : String
  topicArn : String
  deriving DecidableEq

/-- `subscribe_to_event` (lines 75-84): the `events` list (with
    `'FINDING_REPORTED'` commented out in the source) and the loop issuing
    one subscription call per event. -/
def subscribe_to_event (templatearn topicarn : String) : List SubscribeCall :=
  let events := ["ASSESSMENT_RUN_STARTED", "ASSESSMENT_RUN_COMPLETED",
    "ASSESSMENT_RUN_STATE_CHANGED"]
  events.map (fun event => ⟨templatearn, event, topicarn⟩)

/-! ## Spec characterizations of the CVE classifier

For the refinement claim about the classifier, two definitions written from
the specification's words (not from the code), to be compared with
`cveRegexMatch`. -/

/-- Numeric value of a digit string (most significant first). -/
def digitsVal (cs : List Char) : Nat :=
  cs.foldl (fun a c => a * 10 + (c.toNat - '0'.toNat)) 0

/-- The claim's characterization, as stated: the form `CVE-YYYY-NNNN+` with
    the year 1999 or later and a sequence number of at least 4 digits whose
    last three digits are at least 021. -/
def claimedCveForm (s : String) : Bool :=
  match s.data with
  | 'C' :: 'V' :: 'E' :: '-' :: y1 :: y2 :: y3 :: y4 :: '-' :: seq =>
      [y1, y2, y3, y4].all isDigitCh && 1999 ≤ digitsVal [y1, y2, y3, y4] &&
      seq.all isDigitCh && 4 ≤ seq.length &&
      21 ≤ digitsVal (seq.drop (seq.length - 3))
  | _ => false

/-- The corrected characterization of the year part, written declaratively:
    the literal string `1999`, or four characters starting with the literal
    `2` and continuing with Unicode decimal digits. -/
def amendedYear (year : List Char) : Prop :=
  year = ['1', '9', '9', '9'] ∨
    (year.length = 4 ∧ year.head? = some '2' ∧
      ∀ c ∈ year.tail, isRegexDigit c = true)

/-- The corrected characterization of the sequence-number part: exactly four
    characters — the literal `0`, two Unicode decimal digits and one nonzero
    ASCII digit — or a nonzero ASCII digit followed by at least three Unicode
    decimal digits. -/
def amendedSeq (seq : List Char) : Prop :=
  (seq.length = 4 ∧ seq.head? = some '0' ∧
    (∀ c ∈ (seq.drop 1).take 2, isRegexDigit c = true) ∧
    (∃ c, seq.getLast? = some c ∧ isPosDigit c = true)) ∨
  ((∃ c, seq.head? = some c ∧ isPosDigit c = true) ∧
    4 ≤ seq.length ∧ ∀ c ∈ seq.tail, isRegexDigit c = true)

/-- The corrected whole-identifier characterization: the literal `CVE-`, a
    year of the amended year form, a literal dash, and a sequence number of
    the amended sequence form. -/
def amendedCveShape (cs : List Char) : Prop :=
  ∃ year seq, cs = 'C' :: 'V' :: 'E' :: '-' :: (year ++ '-' :: seq) ∧
    amendedYear year ∧ amendedSeq seq

/-! ## The report file: `json.dump(data, rf, indent=4)`

The serialized text `json.dump` writes for a value, with `indent=4` and the
default separators `(',', ': ')` and `ensure_ascii=True`: items of a nonempty
array or object each on their own line, indented four spaces deeper than the
bracket line; every non-ASCII or control character of a string escaped
(`\uXXXX`, surrogate pairs above U+FFFF); integers in decimal. -/

/-- `n` spaces of indentation. -/
def pad (n : Nat) : List Char := List.replicate n ' '

/-- The decimal digit character for `k < 10`. -/
def digitCh (k : Nat) : Char := Char.ofNat ('0'.toNat + k)

/-- The lowercase hex digit character for `k < 16`. -/
def hexCh (k : Nat) : Char :=
  if k < 10 then Char.ofNat ('0'.toNat + k) else Char.ofNat ('a'.toNat + (k - 10))

/-- The four hex digits of `n < 0x10000`, most significant first. -/
def hex4Chars (n : Nat) : List Char :=
  [hexCh (n / 4096 % 16), hexCh (n / 256 % 16), hexCh (n / 16 % 16), hexCh (n % 16)]

/-- One string character as `json.dump` (with `ensure_ascii=True`) writes it:
    the two-character escapes of the encoder's escape table, printable ASCII
    verbatim, everything else as `\uXXXX` (a surrogate pair beyond U+FFFF). -/
def escChar (c : Char) : List Char :=
  if c = '"' then ['\\', '"']
  else if c = '\\' then ['\\', '\\']
  else if c = '\n' then ['\\', 'n']
  else if c = '\r' then ['\\', 'r']
  else if c = '\t' then ['\\', 't']
  else if c.toNat = 8 then ['\\', 'b']
  else if c.toNat = 12 then ['\\', 'f']
  else if 0x20 ≤ c.toNat && c.toNat ≤ 0x7e then [c]
  else if c.toNat < 0x10000 then '\\' :: 'u' :: hex4Chars c.toNat
  else
    let m := c.toNat - 0x10000
    ('\\' :: 'u' :: hex4Chars (0xD800 + m / 0x400)) ++
      ('\\' :: 'u' :: hex4Chars (0xDC00 + m % 0x400))

/-- A JSON string literal: quote, escaped characters, quote. -/
def emitStr (s : String) : List Char :=
  '"' :: (s.data.flatMap escChar ++ ['"'])

/-- Decimal digits of a natural number, most significant first. -/
def natChars (n : Nat) : List Char :=
  if n < 10 then [digitCh n] else natChars (n / 10) ++ [digitCh (n % 10)]
termination_by n
decreasing_by simp_wf; omega

/-- `str(i)` for a Python int: optional minus sign, then decimal digits. -/
def intChars (i : Int) : List Char :=
  if i < 0 then '-' :: natChars i.natAbs else natChars i.natAbs

mutual
/-- The characters `json.dump(v, rf, indent=4)` writes for `v`, when the
    enclosing line is indented by `ind` spaces. -/
def emitVal (ind : Nat) : Jval → List Char
  | .null => ['n', 'u', 'l', 'l']
  | .bool b => if b then ['t', 'r', 'u', 'e'] else ['f', 'a', 'l', 's', 'e']
  | .int n => intChars n
  | .str s => emitStr s
  | .arr [] => ['[', ']']
  | .arr (x :: xs) =>
      '[' :: '\n' ::
        (pad (ind + 4) ++ emitVal (ind + 4) x ++ emitArrTail (ind + 4) xs ++
          '\n' :: (pad ind ++ [']']))
  | .obj [] => ['{', '}']
  | .obj (m :: ms) =>
      '{' :: '\n' ::
        (pad (ind + 4) ++ emitMember (ind + 4) m ++ emitObjTail (ind + 4) ms ++
          '\n' :: (pad ind ++ ['}']))
/-- The remaining elements of a nonempty array: `,\n`, indentation, element. -/
def emitArrTail (ind : Nat) : List Jval → List Char
  | [] => []
  | x :: xs => ',' :: '\n' :: (pad ind ++ emitVal ind x ++ emitArrTail ind xs)
/-- One object member: key, `: `, value. -/
def emitMember (ind : Nat) : String × Jval → List Char
  | (k, v) => emitStr k ++ ':' :: ' ' :: emitVal ind v
/-- The remaining members of a nonempty object. -/
def emitObjTail (ind : Nat) : List (String × Jval) → List Char
  | [] => []
  | m :: ms => ',' :: '\n' :: (pad ind ++ emitMember ind m ++ emitObjTail ind ms)
end

/-- The full text `json.dump(v, rf, indent=4)` writes. -/
def dumpJ (v : Jval) : String := String.mk (emitVal 0 v)

/-- Keys of an embedded dict are pairwise distinct (true of every dict a
    Python program can hold; a constraint only on the embedding, which
    represents dicts as lists of pairs). -/
def keysDistinct : List (String × Jval) → Bool
  | [] => true
  | (k, _) :: rest => rest.all (fun kv => kv.1 ≠ k) && keysDistinct rest

mutual
/-- `v` is the embedding of an actual Python value: every object's keys are
    distinct. -/
def wfJ : Jval → Bool
  | .null => true
  | .bool _ => true
  | .int _ => true
  | .str _ => true
  | .arr xs => wfJList xs
  | .obj ms => keysDistinct ms && wfJMembers ms
def wfJList : List Jval → Bool
  | [] => true
  | x :: xs => wfJ x && wfJList xs
def wfJMembers : List (String × Jval) → Bool
  | [] => true
  | m :: ms => wfJ m.2 && wfJMembers ms
end

/-! ## The feed parser: `json.loads`

A recursive-descent parser over the character list, modelling `json.loads` on
the grammar `json.dump` can produce (plus arbitrary whitespace): it has no
float support, and it is lenient about leading zeros in numbers; neither
difference is reachable from any value the engine serializes.  Failure
(`none`) models `json.JSONDecodeError`. -/

/-- JSON whitespace. -/
def isWsCh (c : Char) : Bool := c = ' ' || c = '\t' || c = '\n' || c = '\r'

/-- Skip whitespace. -/
def dropWs : List Char → List Char
  | c :: cs => if isWsCh c then dropWs cs else c :: cs
  | [] => []

/-- The value of one hex digit (digits `0`-`9`, letters `a`-`f` and `A`-`F`,
    stated on the code points). -/
def hexDigVal (c : Char) : Option Nat :=
  let n := c.toNat
  if 48 ≤ n ∧ n ≤ 57 then some (n - 48)
  else if 97 ≤ n ∧ n ≤ 102 then some (n - 87)
  else if 65 ≤ n ∧ n ≤ 70 then some (n - 55)
  else none

/-- The value of a four-hex-digit escape. -/
def hex4Val (a b c d : Char) : Option Nat :=
  match hexDigVal a, hexDigVal b, hexDigVal c, hexDigVal d with
  | some va, some vb, some vc, some vd => some (((va * 16 + vb) * 16 + vc) * 16 + vd)
  | _, _, _, _ => none

/-- The single-character escapes of the JSON grammar. -/
def escControl : Char → Option Char
  | 'b' => some (Char.ofNat 8)
  | 'f' => some (Char.ofNat 12)
  | 'n' => some '\n'
  | 'r' => some '\r'
  | 't' => some '\t'
  | '"' => some '"'
  | '/' => some '/'
  | '\\' => some '\\'
  | _ => none

/-- Decode one `\uXXXX` escape, given the characters after the `\u`: a
    Unicode scalar value directly, or a high surrogate followed by a `\u`-
    escaped low surrogate, combined into one character.  A lone surrogate is
    rejected (the embedding's strings hold only Unicode scalar values).  The
    returned remainder is strictly shorter than the input. -/
def decodeUEsc : (cs : List Char) → Option (Char × {r : List Char // r.length < cs.length})
  | a :: b :: c :: d :: rest =>
    (match hex4Val a b c d with
     | none => none
     | some n =>
       if n < 0xD800 || 0xE000 ≤ n then
         some (Char.ofNat n, ⟨rest, by simp; omega⟩)
       else if n < 0xDC00 then
         match rest with
         | '\\' :: 'u' :: e :: f :: g :: h :: rest2 =>
           (match hex4Val e f g h with
            | some m =>
              if 0xDC00 ≤ m && m < 0xE000 then
                some (Char.ofNat (0x10000 + (n - 0xD800) * 0x400 + (m - 0xDC00)),
                  ⟨rest2, by simp; omega⟩)
              else none
            | none => none)
         | _ => none
       else none)
  | _ => none

/-- The body of a string literal, after the opening quote: plain characters
    (control characters are rejected, as in strict-mode `json.loads`),
    two-character escapes, and `\uXXXX` escapes via `decodeUEsc`. -/
def parseStrBody (acc : List Char) : (cs : List Char) → Option (String × List Char)
  | [] => none
  | c :: rest =>
    if c = '"' then some (String.mk acc.reverse, rest)
    else if c = '\\' then
      match rest with
      | [] => none
      | e :: rest1 =>
        if e = 'u' then
          match decodeUEsc rest1 with
          | some (ch, r2) => parseStrBody (ch :: acc) r2.1
          | none => none
        else
          match escControl e with
          | some ch => parseStrBody (ch :: acc) rest1
          | none => none
    else if c.toNat < 0x20 then none
    else parseStrBody (c :: acc) rest
termination_by cs => cs.length
decreasing_by
  · have := r2.2; simp at this ⊢; omega
  · simp; omega
  · simp

/-- Longest digit prefix. -/
def takeDigs : List Char → List Char × List Char
  | c :: cs =>
      if isDigitCh c then
        let r := takeDigs cs
        (c :: r.1, r.2)
      else ([], c :: cs)
  | [] => ([], [])

/-- An integer token: optional minus sign, then at least one digit. -/
def parseIntTok (cs : List Char) : Option (Int × List Char) :=
  match cs with
  | [] => none
  | c :: rest =>
    if c = '-' then
      match takeDigs rest with
      | ([], _) => none
      | (ds, r) => some (-(digitsVal ds : Int), r)
    else
      match takeDigs (c :: rest) with
      | ([], _) => none
      | (ds, r) => some ((digitsVal ds : Int), r)

/-- Insert into a dict embedded as a pair list: an existing key keeps its
    position and gets the new value; a fresh key goes to the end.  This is how
    a Python dict built by insertions behaves. -/
def dictInsert (ms : List (String × Jval)) (k : String) (v : Jval) :
    List (String × Jval) :=
  match ms with
  | [] => [(k, v)]
  | (k', v') :: rest =>
      if k' = k then (k', v) :: rest else (k', v') :: dictInsert rest k v

/-- Build the dict from parsed members in order: a duplicate key keeps its
    first position with its last value, as in `json.loads`. -/
def dedupObj (pairs : List (String × Jval)) : List (String × Jval) :=
  pairs.foldl (fun acc kv => dictInsert acc kv.1 kv.2) []

mutual
/-- Parse one value (leading whitespace allowed).  `fuel` only bounds the
    recursion depth; `parseJ` passes enough for any input. -/
def parseVal : Nat → List Char → Option (Jval × List Char)
  | 0, _ => none
  | fuel + 1, cs =>
    match dropWs cs with
    | [] => none
    | c :: r =>
      if c = 'n' then
        match r with
        | 'u' :: 'l' :: 'l' :: r2 => some (.null, r2)
        | _ => none
      else if c = 't' then
        match r with
        | 'r' :: 'u' :: 'e' :: r2 => some (.bool true, r2)
        | _ => none
      else if c = 'f' then
        match r with
        | 'a' :: 'l' :: 's' :: 'e' :: r2 => some (.bool false, r2)
        | _ => none
      else if c = '"' then (parseStrBody [] r).map (fun sr => (.str sr.1, sr.2))
      else if c = '[' then
        match dropWs r with
        | [] => none
        | c2 :: r2 =>
          if c2 = ']' then some (.arr [], r2)
          else (parseItems fuel (c2 :: r2)).map (fun er => (.arr er.1, er.2))
      else if c = '{' then
        match dropWs r with
        | [] => none
        | c2 :: r2 =>
          if c2 = '}' then some (.obj [], r2)
          else (parseMembers fuel (c2 :: r2)).map (fun mr => (.obj (dedupObj mr.1), mr.2))
      else if c = '-' || isDigitCh c then
        (parseIntTok (c :: r)).map (fun nr => (.int nr.1, nr.2))
      else none
/-- Parse one or more comma-separated array elements and the closing `]`. -/
def parseItems : Nat → List Char → Option (List Jval × List Char)
  | 0, _ => none
  | fuel + 1, cs =>
    match parseVal fuel cs with
    | none => none
    | some (v, r) =>
      match dropWs r with
      | [] => none
      | c :: r2 =>
        if c = ',' then (parseItems fuel r2).map (fun er => (v :: er.1, er.2))
        else if c = ']' then some ([v], r2)
        else none
/-- Parse one or more comma-separated object members and the closing `}`. -/
def parseMembers : Nat → List Char → Option (List (String × Jval) × List Char)
  | 0, _ => none
  | fuel + 1, cs =>
    match dropWs cs with
    | [] => none
    | c :: r =>
      if c = '"' then
        match parseStrBody [] r with
        | none => none
        | some (k, r1) =>
          match dropWs r1 with
          | [] => none
          | c2 :: r2 =>
            if c2 = ':' then
              match parseVal fuel r2 with
              | none => none
              | some (v, r3) =>
                match dropWs r3 with
                | [] => none
                | c3 :: r4 =>
                  if c3 = ',' then
                    (parseMembers fuel r4).map (fun mr => ((k, v) :: mr.1, mr.2))
                  else if c3 = '}' then some ([(k, v)], r4)
                  else none
            else none
      else none
end

/-- `json.loads`: parse a complete document, allowing trailing whitespace
    only.  `none` models a raised `json.JSONDecodeError`. -/
def parseJ (s : String) : Option Jval :=
  match parseVal (s.data.length + 1) s.data with
  | some (v, r) => if dropWs r = [] then some v else none
  | none => none

/-! ## CVE-feed enrichment and the report file -/

/-- What one `requests.get` call can come back with: a response (status code
    and body text), or a raised transport exception. -/
inductive HttpResult where
  | response (status_code : Nat) (text : String)
  | raised

/-- The fixed feed endpoint (line 144): `SEARCHURL` for a given CVE id. -/
def SEARCHURL (cveid : String) : String := "http://cve.circl.lu/api/cve/" ++ cveid

/-- `get_feeds` (lines 139-149). `http` is `requests.get` and `loads` is
    `json.loads`, taken as a parameter: its full input grammar (floats,
    exponents, ...) is wider than the report grammar `parseJ` covers, and
    `data = json.loads(r.text)` simply passes its result — a value, or an
    uncaught `JSONDecodeError` — through.  `data = None`; only a 200 response
    replaces it with `loads` of the body; any other status returns `None`;
    an exception from `requests.get` propagates — nothing here catches it. -/
def get_feeds (http : String → HttpResult) (loads : String → Except PyErr Jval)
    (cveid : String) : Except PyErr Jval :=
  match http (SEARCHURL cveid) with
  | .raised => .error .requestsError
  | .response status_code text =>
    if status_code = 200 then loads text else .ok .null

/-- The JSON value of one record's `report` dict. -/
def reportToJ (report : List (String × String)) : Jval :=
  .obj (report.map (fun kv => (kv.1, .str kv.2)))

/-- The JSON value of one harvested record: `{id, report}` or
    `{id, report, feeds}` in insertion order. -/
def recordToJ : Record → Jval
  | .plain id report => .obj [("id", .str id), ("report", reportToJ report)]
  | .enriched id report feeds =>
      .obj [("id", .str id), ("report", reportToJ report), ("feeds", feeds)]

/-- `genearte_report` (lines 126-137): harvest, then the exact text
    `json.dump(data, rf, indent=4)` writes to the report file. -/
def genearte_report (describe : List String → List Finding)
    (feedsFn : String → Except PyErr Jval) (pages : List Page) :
    Except PyErr String :=
  match pull_list_finding describe feedsFn pages with
  | .error e => .error e
  | .ok tr => .ok (dumpJ (.arr (tr.data.map recordToJ)))

/-- The report-file text for a given record list (the serialization step of
    `genearte_report` in isolation). -/
def reportFileContent (records : List Record) : String :=
  dumpJ (.arr (records.map recordToJ))

/-- Read one record back from its JSON value. -/
def reportOfJ : List (String × Jval) → Option (List (String × String))
  | [] => some []
  | (k, .str v) :: rest => (reportOfJ rest).map (fun r => (k, v) :: r)
  | _ => none

/-- Decode one record. -/
def recordOfJ : Jval → Option Record
  | .obj [("id", .str i), ("report", .obj rps)] =>
      (reportOfJ rps).map (fun rp => .plain i rp)
  | .obj [("id", .str i), ("report", .obj rps), ("feeds", f)] =>
      (reportOfJ rps).map (fun rp => .enriched i rp f)
  | _ => none

/-- Decode the whole report file's value back into records. -/
def decodeRecords : Jval → Option (List Record)
  | .arr js => js.mapM recordOfJ
  | _ => none

/-- The record is the embedding of a Python record: its `report` dict has
    distinct keys and its `feeds` value (if any) is well-formed. -/
def wfRecord : Record → Bool
  | .plain _ report => keysDistinct (report.map (fun kv => (kv.1, Jval.str kv.2)))
  | .enriched _ report feeds =>
      keysDistinct (report.map (fun kv => (kv.1, Jval.str kv.2))) && wfJ feeds

/-- The first key of `report_keys` missing from a finding, if any: where the
    extraction loop raises `KeyError`. -/
def firstMissingKey (finding : Finding) : Option String :=
  report_keys.find? (fun k => (alistGet finding k).isNone)

/-! # Theorems -/

/-! ## C3: the classifier on the six test strings -/

/-- C3: the CVE-identifier classifier accepts "CVE-2021-12345" and
    "CVE-1999-0021", and rejects "CVE-1998-0001", "cve-2021-1234",
    "XYZ-2021-1234" and "CVE-2021-012" (matching is case-sensitive). -/
theorem cve_classifier_test_strings :
    cveRegexMatch "CVE-2021-12345" = true ∧
    cveRegexMatch "CVE-1999-0021" = true ∧
    cveRegexMatch "CVE-1998-0001" = false ∧
    cveRegexMatch "cve-2021-1234" = false ∧
    cveRegexMatch "XYZ-2021-1234" = false ∧
    cveRegexMatch "CVE-2021-012" = false := by
  decide

/-! ## C7: event subscription -/

/-- C7: `subscribe_to_event` issues exactly three subscription calls against
    the given topic, for `ASSESSMENT_RUN_STARTED`, `ASSESSMENT_RUN_COMPLETED`
    and `ASSESSMENT_RUN_STATE_CHANGED` in that order, and none for
    `FINDING_REPORTED`. -/
theorem subscribe_three_events (templatearn topicarn : String) :
    subscribe_to_event templatearn topicarn =
      [⟨templatearn, "ASSESSMENT_RUN_STARTED", topicarn⟩,
       ⟨templatearn, "ASSESSMENT_RUN_COMPLETED", topicarn⟩,
       ⟨templatearn, "ASSESSMENT_RUN_STATE_CHANGED", topicarn⟩] ∧
    ∀ c ∈ subscribe_to_event templatearn topicarn, c.event ≠ "FINDING_REPORTED" := by
  refine ⟨rfl, ?_⟩
  intro c hc
  simp only [subscribe_to_event, List.map_cons, List.map_nil, List.mem_cons,
    List.not_mem_nil, or_false] at hc
  rcases hc with rfl | rfl | rfl <;> simp

/-! ## C6: rule-package resolution -/

/-- C6: `get_rulepackagearns` returns exactly the ARNs of the static table's
    entry for the region, in insertion order, and fails (raising out of the
    failed lookup, with no default rule set) for every region absent from the
    table. -/
theorem rulepackages_lookup (ruleMap : RuleMap) (region : String) :
    (∀ rules, alistGet ruleMap region = some rules →
      get_rulepackagearns ruleMap region = .ok (rules.map (fun rv => rv.2))) ∧
    (alistGet ruleMap region = none →
      get_rulepackagearns ruleMap region = .error .attributeError) := by
  constructor
  · intro rules h
    simp [get_rulepackagearns, h]
  · intro h
    simp [get_rulepackagearns, h]

/-- Witness for C6: a concrete two-region table, one hit (ARNs in insertion
    order) and one miss (error). -/
theorem rulepackages_lookup_witness :
    get_rulepackagearns
        [("us-east-1", [("cve", "arn:a"), ("cis", "arn:b")]),
         ("us-west-2", [("cve", "arn:c")])] "us-east-1" = .ok ["arn:a", "arn:b"] ∧
    get_rulepackagearns
        [("us-east-1", [("cve", "arn:a"), ("cis", "arn:b")]),
         ("us-west-2", [("cve", "arn:c")])] "eu-west-1" = .error .attributeError := by
  constructor
  · exact (rulepackages_lookup _ "us-east-1").1 [("cve", "arn:a"), ("cis", "arn:b")] (by decide)
  · exact (rulepackages_lookup _ "eu-west-1").2 (by decide)

/-! ## C5: the shape of one emitted record -/

/-- C5: for a detailed finding carrying its id and all four report fields,
    the emitted record's report has exactly `title`, `description`,
    `severity`, `recommendation` copied from the finding, and the record is
    `{id, report, feeds}` (feeds the enricher's result) when the id matches
    the CVE pattern, `{id, report}` otherwise. -/
theorem record_shape (feedsFn : String → Except PyErr Jval) (finding : Finding)
    (fid tv dv sv rv : String)
    (hid : alistGet finding "id" = some fid)
    (ht : alistGet finding "title" = some tv)
    (hdesc : alistGet finding "description" = some dv)
    (hsev : alistGet finding "severity" = some sv)
    (hrec : alistGet finding "recommendation" = some rv) :
    (cveRegexMatch fid = false →
      processFinding feedsFn finding = .ok (.plain fid
        [("title", tv), ("description", dv), ("severity", sv), ("recommendation", rv)])) ∧
    (∀ feed, cveRegexMatch fid = true → feedsFn fid = .ok feed →
      processFinding feedsFn finding = .ok (.enriched fid
        [("title", tv), ("description", dv), ("severity", sv), ("recommendation", rv)]
        feed)) := by
  have hrep : extractReport finding report_keys =
      .ok [("title", tv), ("description", dv), ("severity", sv), ("recommendation", rv)] := by
    simp [extractReport, report_keys, ht, hdesc, hsev, hrec, Except.map]
  constructor
  · intro hcve
    simp [processFinding, hrep, hid, hcve]
  · intro feed hcve hfeed
    simp [processFinding, hrep, hid, hcve, hfeed]

/-- Witness for C5: a concrete CVE finding, enriched, and a concrete non-CVE
    finding, not enriched. -/
theorem record_shape_witness :
    processFinding (fun _ => .ok (.obj [("cvss", .int 7)]))
        [("id", "CVE-2021-12345"), ("title", "t"), ("description", "d"),
         ("severity", "High"), ("recommendation", "r")] =
      .ok (.enriched "CVE-2021-12345"
        [("title", "t"), ("description", "d"), ("severity", "High"),
         ("recommendation", "r")] (.obj [("cvss", .int 7)])) ∧
    processFinding (fun _ => .ok (.obj [("cvss", .int 7)]))
        [("id", "ALAS-2021-1"), ("title", "t"), ("description", "d"),
         ("severity", "Low"), ("recommendation", "r")] =
      .ok (.plain "ALAS-2021-1"
        [("title", "t"), ("description", "d"), ("severity", "Low"),
         ("recommendation", "r")]) := by
  constructor
  · exact (record_shape _ _ "CVE-2021-12345" "t" "d" "High" "r"
      (by decide) (by decide) (by decide) (by decide) (by decide)).2
      (.obj [("cvss", .int 7)]) (by decide) rfl
  · exact (record_shape _ _ "ALAS-2021-1" "t" "d" "Low" "r"
      (by decide) (by decide) (by decide) (by decide) (by decide)).1 (by decide)

/-! ## C9: loop control is Python truthiness of the token -/

/-- C9: the pagination loop stops not only on an absent token but on any
    falsy one (`None` or the empty string), and it continues to the next
    list call exactly when the returned token is present and truthy. -/
theorem pagination_token_truthiness (describe : List String → List Finding)
    (feedsFn : String → Except PyErr Jval) (tok : Option String) (p : Page)
    (rest : List Page) :
    tokenTruthy none = false ∧ tokenTruthy (some "") = false ∧
    (∀ s : String, s ≠ "" → tokenTruthy (some s) = true) ∧
    (tokenTruthy p.nextToken = false →
      pullLoop describe feedsFn tok (p :: rest) = pullLoop describe feedsFn tok [p]) ∧
    (tokenTruthy p.nextToken = true →
      pullLoop describe feedsFn tok (p :: rest) =
        match processFindings feedsFn (describe p.findingArns) with
        | .error e => .error e
        | .ok recs =>
          match pullLoop describe feedsFn p.nextToken rest with
          | .error e => .error e
          | .ok tr => .ok ⟨listArg tok :: tr.listCalls,
              (p.findingArns, "EN_US") :: tr.describeCalls, recs ++ tr.data⟩) := by
  refine ⟨rfl, by decide, fun s h => by simp [tokenTruthy, h], ?_, ?_⟩
  · intro hfalsy
    simp only [pullLoop]
    cases processFindings feedsFn (describe p.findingArns) with
    | error e => rfl
    | ok recs => simp [hfalsy]
  · intro htruthy
    simp only [pullLoop]
    cases processFindings feedsFn (describe p.findingArns) with
    | error e => rfl
    | ok recs => simp [htruthy]

/-- Witness for C9: with an empty-string token on the first page the loop
    returns after one page, whatever pages would follow. -/
theorem pagination_token_truthiness_witness :
    tokenTruthy (some "t") = true ∧
    pullLoop (fun _ => []) (fun _ => .ok .null) none
        (⟨some "", ["a1"]⟩ :: [⟨none, ["a2"]⟩]) =
      pullLoop (fun _ => []) (fun _ => .ok .null) none [⟨some "", ["a1"]⟩] ∧
    pullLoop (fun _ => []) (fun _ => .ok .null) none
        (⟨some "t", ["a1"]⟩ :: [⟨none, ["a2"]⟩]) =
      match processFindings (fun _ => .ok .null) ((fun _ => ([] : List Finding)) ["a1"]) with
      | .error e => .error e
      | .ok recs =>
        match pullLoop (fun _ => []) (fun _ => .ok .null) (some "t") [⟨none, ["a2"]⟩] with
        | .error e => .error e
        | .ok tr => .ok ⟨listArg none :: tr.listCalls,
            (["a1"], "EN_US") :: tr.describeCalls, recs ++ tr.data⟩ := by
  refine ⟨?_, ?_, ?_⟩
  · exact (pagination_token_truthiness (fun _ => []) (fun _ => .ok .null) none
      ⟨some "t", ["a1"]⟩ []).2.2.1 "t" (by decide)
  · exact (pagination_token_truthiness (fun _ => []) (fun _ => .ok .null) none
      ⟨some "", ["a1"]⟩ [⟨none, ["a2"]⟩]).2.2.2.1 (by decide)
  · exact (pagination_token_truthiness (fun _ => []) (fun _ => .ok .null) none
      ⟨some "t", ["a1"]⟩ [⟨none, ["a2"]⟩]).2.2.2.2 (by decide)

/-! ## C10: a missing report field aborts the whole harvest -/

theorem extractReport_error_of_firstMissing (finding : Finding) :
    ∀ (ks : List String) (k : String),
      ks.find? (fun kk => (alistGet finding kk).isNone) = some k →
      extractReport finding ks = .error (.keyError k) := by
  intro ks
  induction ks with
  | nil => intro k h; simp at h
  | cons k0 ks ih =>
    intro k h
    cases hget : alistGet finding k0 with
    | none =>
      rw [List.find?_cons_of_pos _ (by simp [hget])] at h
      cases h
      simp [extractReport, hget]
    | some v =>
      rw [List.find?_cons_of_neg _ (by simp [hget])] at h
      simp [extractReport, hget, ih k h, Except.map]

theorem processFinding_error_of_missing_key (feedsFn : String → Except PyErr Jval)
    (finding : Finding) (k : String) (h : firstMissingKey finding = some k) :
    processFinding feedsFn finding = .error (.keyError k) := by
  simp [processFinding, extractReport_error_of_firstMissing finding report_keys k h]

theorem processFindings_error_mid (feedsFn : String → Except PyErr Jval) :
    ∀ (gs : List Finding) (f : Finding) (fs : List Finding) (e : PyErr),
      (∀ g ∈ gs, ∃ r, processFinding feedsFn g = .ok r) →
      processFinding feedsFn f = .error e →
      processFindings feedsFn (gs ++ f :: fs) = .error e := by
  intro gs
  induction gs with
  | nil => intro f fs e _ hf; simp [processFindings, hf]
  | cons g gs ih =>
    intro f fs e hok hf
    obtain ⟨r, hr⟩ := hok g (by simp)
    have htail := ih f fs e (fun g' hg' => hok g' (by simp [hg'])) hf
    simp [processFindings, hr, htail, Except.map]

theorem pullLoop_error_of_page_error (describe : List String → List Finding)
    (feedsFn : String → Except PyErr Jval) (p : Page) (rest : List Page) (e : PyErr) :
    ∀ (good : List Page) (tok : Option String),
      (∀ q ∈ good, tokenTruthy q.nextToken = true) →
      (∀ q ∈ good, ∃ rs, processFindings feedsFn (describe q.findingArns) = .ok rs) →
      processFindings feedsFn (describe p.findingArns) = .error e →
      pullLoop describe feedsFn tok (good ++ p :: rest) = .error e := by
  intro good
  induction good with
  | nil => intro tok _ _ hp; simp [pullLoop, hp]
  | cons q good ih =>
    intro tok htok hok hp
    obtain ⟨rs, hq⟩ := hok q (by simp)
    have htr := ih q.nextToken (fun x hx => htok x (by simp [hx]))
      (fun x hx => hok x (by simp [hx])) hp
    simp [pullLoop, hq, htok q (by simp), htr]

/-- C10: if a described finding lacks one of the four report fields, the
    harvest raises `KeyError` on the first such key and returns nothing —
    the records already assembled from earlier findings and earlier pages are
    discarded with it.  `good` are the pages processed before the failing
    page `p`; `gs` the findings of `p` processed before the failing finding
    `f`. -/
theorem missing_report_key_aborts (describe : List String → List Finding)
    (feedsFn : String → Except PyErr Jval) (good : List Page) (p : Page)
    (rest : List Page) (gs fs : List Finding) (f : Finding) (k : String)
    (htok : ∀ q ∈ good, tokenTruthy q.nextToken = true)
    (hok : ∀ q ∈ good, ∃ rs, processFindings feedsFn (describe q.findingArns) = .ok rs)
    (hsplit : describe p.findingArns = gs ++ f :: fs)
    (hgs : ∀ g ∈ gs, ∃ r, processFinding feedsFn g = .ok r)
    (hmiss : firstMissingKey f = some k) :
    pull_list_finding describe feedsFn (good ++ p :: rest) = .error (.keyError k) := by
  have hpage : processFindings feedsFn (describe p.findingArns) = .error (.keyError k) := by
    rw [hsplit]
    exact processFindings_error_mid feedsFn gs f fs _ hgs
      (processFinding_error_of_missing_key feedsFn f k hmiss)
  exact pullLoop_error_of_page_error describe feedsFn p rest _ good none htok hok hpage

/-- Witness for C10: a one-page run whose single finding lacks
    `description`; the harvest is exactly `KeyError 'description'`. -/
theorem missing_report_key_aborts_witness :
    pull_list_finding
        (fun _ => [[("id", "f1"), ("title", "t"), ("severity", "High"),
          ("recommendation", "r")]])
        (fun _ => .ok .null) [⟨none, ["a1"]⟩] = .error (.keyError "description") := by
  have h := missing_report_key_aborts
    (fun _ => [[("id", "f1"), ("title", "t"), ("severity", "High"),
      ("recommendation", "r")]])
    (fun _ => .ok .null) [] ⟨none, ["a1"]⟩ [] []
    [] [("id", "f1"), ("title", "t"), ("severity", "High"), ("recommendation", "r")]
    "description" (by simp) (by simp) rfl (by simp) (by decide)
  simpa using h

/-! ## C1: complete token-driven pagination -/

theorem listArg_of_truthy (tok : Option String) (h : tokenTruthy tok = true) :
    listArg tok = tok := by
  cases tok with
  | none => simp [tokenTruthy] at h
  | some t =>
    simp only [tokenTruthy, ne_eq, decide_not] at h
    simp only [listArg, ite_eq_right_iff]
    intro he
    simp [he] at h

theorem pullLoop_complete (describe : List String → List Finding)
    (feedsFn : String → Except PyErr Jval) (recs : Page → List Record) :
    ∀ (pages : List Page) (tok : Option String), pages ≠ [] →
      (∀ p ∈ pages.dropLast, tokenTruthy p.nextToken = true) →
      (∀ p ∈ pages.getLast?, p.nextToken = none) →
      (∀ p ∈ pages, processFindings feedsFn (describe p.findingArns) = .ok (recs p)) →
      pullLoop describe feedsFn tok pages =
        .ok ⟨listArg tok :: pages.dropLast.map Page.nextToken,
             pages.map (fun p => (p.findingArns, "EN_US")),
             (pages.map recs).flatten⟩ := by
  intro pages
  induction pages with
  | nil => intro tok h; exact absurd rfl h
  | cons p pages ih =>
    intro tok _ htok hlast hrecs
    cases pages with
    | nil =>
      have hnone : p.nextToken = none := hlast p (by simp)
      have hp := hrecs p (by simp)
      simp [pullLoop, hp, tokenTruthy, hnone]
    | cons q pages' =>
      have hptok : tokenTruthy p.nextToken = true := htok p (by simp)
      have hp := hrecs p (by simp)
      have htail := ih p.nextToken (by simp)
        (fun x hx => htok x (by simpa using List.mem_cons_of_mem p hx))
        (by simpa using hlast)
        (fun x hx => hrecs x (by simp [hx]))
      have step : pullLoop describe feedsFn tok (p :: q :: pages') =
          match processFindings feedsFn (describe p.findingArns) with
          | .error e => .error e
          | .ok rs =>
            if tokenTruthy p.nextToken then
              match pullLoop describe feedsFn p.nextToken (q :: pages') with
              | .error e => .error e
              | .ok tr => .ok ⟨listArg tok :: tr.listCalls,
                  (p.findingArns, "EN_US") :: tr.describeCalls, rs ++ tr.data⟩
            else .ok ⟨[listArg tok], [(p.findingArns, "EN_US")], rs⟩ := rfl
      rw [step, hp, htail]
      simp [hptok, listArg_of_truthy p.nextToken hptok]

/-- C1: when every page but the last carries a (truthy) pagination token and
    the last carries none, the harvester issues exactly one list call per
    page — the first without a token, each next one with the previous page's
    token — and one describe call per page with locale `EN_US` on that page's
    finding ARNs, stops at the token-less page, and returns the concatenation
    of the pages' records, in page order with nothing added, dropped or
    reordered.  `recs p` are the records of page `p` (hypothesis `hrecs`). -/
theorem pagination_full_harvest (describe : List String → List Finding)
    (feedsFn : String → Except PyErr Jval) (recs : Page → List Record)
    (pages : List Page) (hne : pages ≠ [])
    (htok : ∀ p ∈ pages.dropLast, tokenTruthy p.nextToken = true)
    (hlast : ∀ p ∈ pages.getLast?, p.nextToken = none)
    (hrecs : ∀ p ∈ pages, processFindings feedsFn (describe p.findingArns) = .ok (recs p)) :
    pull_list_finding describe feedsFn pages =
      .ok ⟨none :: pages.dropLast.map Page.nextToken,
           pages.map (fun p => (p.findingArns, "EN_US")),
           (pages.map recs).flatten⟩ :=
  pullLoop_complete describe feedsFn recs pages none hne htok hlast hrecs

/-- Witness for C1: the specification's mocked three-page run
    `[P1(token=t1), P2(token=t2), P3(token=none)]` — three list calls
    consuming the tokens in order, three `EN_US` describe calls, and the three
    pages' records concatenated in order. -/
theorem pagination_full_harvest_witness :
    pull_list_finding
        (fun arns =>
          if arns = ["arn1"] then
            [[("id", "CVE-2021-12345"), ("title", "t1"), ("description", "d1"),
              ("severity", "High"), ("recommendation", "r1")]]
          else if arns = ["arn2"] then
            [[("id", "ALAS-1"), ("title", "t2"), ("description", "d2"),
              ("severity", "Low"), ("recommendation", "r2")]]
          else
            [[("id", "ALAS-2"), ("title", "t3"), ("description", "d3"),
              ("severity", "Medium"), ("recommendation", "r3")]])
        (fun _ => .ok (.str "feed"))
        [⟨some "t1", ["arn1"]⟩, ⟨some "t2", ["arn2"]⟩, ⟨none, ["arn3"]⟩] =
      .ok ⟨[none, some "t1", some "t2"],
           [(["arn1"], "EN_US"), (["arn2"], "EN_US"), (["arn3"], "EN_US")],
           [.enriched "CVE-2021-12345"
              [("title", "t1"), ("description", "d1"), ("severity", "High"),
               ("recommendation", "r1")] (.str "feed"),
            .plain "ALAS-1"
              [("title", "t2"), ("description", "d2"), ("severity", "Low"),
               ("recommendation", "r2")],
            .plain "ALAS-2"
              [("title", "t3"), ("description", "d3"), ("severity", "Medium"),
               ("recommendation", "r3")]]⟩ := by
  have h := pagination_full_harvest
    (fun arns =>
      if arns = ["arn1"] then
        [[("id", "CVE-2021-12345"), ("title", "t1"), ("description", "d1"),
          ("severity", "High"), ("recommendation", "r1")]]
      else if arns = ["arn2"] then
        [[("id", "ALAS-1"), ("title", "t2"), ("description", "d2"),
          ("severity", "Low"), ("recommendation", "r2")]]
      else
        [[("id", "ALAS-2"), ("title", "t3"), ("description", "d3"),
          ("severity", "Medium"), ("recommendation", "r3")]])
    (fun _ => .ok (.str "feed"))
    (fun p =>
      if p.findingArns = ["arn1"] then
        [.enriched "CVE-2021-12345"
          [("title", "t1"), ("description", "d1"), ("severity", "High"),
           ("recommendation", "r1")] (.str "feed")]
      else if p.findingArns = ["arn2"] then
        [.plain "ALAS-1"
          [("title", "t2"), ("description", "d2"), ("severity", "Low"),
           ("recommendation", "r2")]]
      else
        [.plain "ALAS-2"
          [("title", "t3"), ("description", "d3"), ("severity", "Medium"),
           ("recommendation", "r3")]])
    [⟨some "t1", ["arn1"]⟩, ⟨some "t2", ["arn2"]⟩, ⟨none, ["arn3"]⟩]
    (by decide) (by decide)
    (by intro p hp; simp at hp; subst hp; rfl)
    (by intro p hp; fin_cases hp <;> rfl)
  simpa using h

/-! ## C2: feed fetch — corrected -/

/-- Counterexample to C2 as stated: on a transport failure `get_feeds` does
    not return `None` — the exception from `requests.get` propagates to the
    caller (nothing in lines 139-149 catches it), whatever `json.loads`
    would have made of any body. -/
theorem get_feeds_transport_counterexample :
    get_feeds (fun _ => .raised) (fun _ => .ok .null) "CVE-2021-12345"
        = .error .requestsError ∧
    get_feeds (fun _ => .raised) (fun _ => .ok .null) "CVE-2021-12345"
        ≠ .ok .null := by
  refine ⟨rfl, ?_⟩
  intro h
  simp [get_feeds] at h

/-- C2 amended: on a 200 response `get_feeds` returns exactly what
    `json.loads` makes of the body — a parsed value, or a raised decode
    error, passed through unchanged; any other status returns `None`
    without raising; a transport failure from `requests.get` propagates as
    an exception. -/
theorem get_feeds_amended (cveid : String) (loads : String → Except PyErr Jval) :
    (∀ (http : String → HttpResult) (txt : String),
      http (SEARCHURL cveid) = .response 200 txt →
      get_feeds http loads cveid = loads txt) ∧
    (∀ (http : String → HttpResult) (st : Nat) (txt : String),
      http (SEARCHURL cveid) = .response st txt → st ≠ 200 →
      get_feeds http loads cveid = .ok .null) ∧
    (∀ http : String → HttpResult,
      http (SEARCHURL cveid) = .raised →
      get_feeds http loads cveid = .error .requestsError) := by
  refine ⟨?_, ?_, ?_⟩
  · intro http txt hhttp
    simp [get_feeds, hhttp]
  · intro http st txt hhttp hst
    simp [get_feeds, hhttp, hst]
  · intro http hhttp
    simp [get_feeds, hhttp]

/-- Witness for the amended C2: the three behaviors at concrete stubs. -/
theorem get_feeds_amended_witness :
    get_feeds (fun _ => .response 200 "body") (fun _ => .ok (.arr [.int 1]))
        "CVE-2021-12345" = .ok (.arr [.int 1]) ∧
    get_feeds (fun _ => .response 404 "nope") (fun _ => .ok (.arr [.int 1]))
        "CVE-2021-12345" = .ok .null ∧
    get_feeds (fun _ => .raised) (fun _ => .ok (.arr [.int 1]))
        "CVE-2021-12345" = .error .requestsError := by
  refine ⟨?_, ?_, ?_⟩
  · exact (get_feeds_amended "CVE-2021-12345" _).1 _ "body" rfl
  · exact (get_feeds_amended "CVE-2021-12345" _).2.1 _ 404 "nope" rfl (by decide)
  · exact (get_feeds_amended "CVE-2021-12345" _).2.2 _ rfl

/-! ## C4: the classifier against the spec's characterization — corrected

The regex's year alternative stops at 2999 (`2\d{3}`), its leading-zero
sequence alternative `0\d{2}[1-9]` constrains the final digit, not the value
of the last three digits, and its `\d` matches any Unicode decimal digit
while `1999`, the leading `2`, the leading `0` and `[1-9]` are ASCII. -/

/-- Counterexample to C4 as stated: the code's regex accepts "CVE-2021-0001"
    (last three digits 001 < 021) and rejects "CVE-3000-1234" (year 3000,
    which the claim's "1999 or later" admits); it also accepts the string
    "CVE-2" U+0660 "21-1234", whose year holds an Arabic-Indic digit matched
    by the pattern's Unicode `\d` but outside the claim's digit runs. -/
theorem cve_characterization_counterexample :
    cveRegexMatch "CVE-2021-0001" = true ∧
    claimedCveForm "CVE-2021-0001" = false ∧
    cveRegexMatch "CVE-3000-1234" = false ∧
    claimedCveForm "CVE-3000-1234" = true ∧
    cveRegexMatch "CVE-2٠21-1234" = true ∧
    claimedCveForm "CVE-2٠21-1234" = false := by
  decide

theorem charEq_iff (a b : Char) : a = b ↔ a.toNat = b.toNat := by
  constructor
  · intro h; rw [h]
  · intro h
    have h2 := congrArg Char.ofNat h
    rwa [Char.ofNat_toNat, Char.ofNat_toNat] at h2

theorem charLe_iff (a b : Char) : a ≤ b ↔ a.toNat ≤ b.toNat := by
  rw [Char.le_def, UInt32.le_def]; rfl

theorem isDigitCh_iff (c : Char) : isDigitCh c = true ↔ 48 ≤ c.toNat ∧ c.toNat ≤ 57 := by
  simp only [isDigitCh, Bool.and_eq_true, decide_eq_true_eq]
  rw [charLe_iff, charLe_iff]
  exact Iff.rfl

theorem isPosDigit_iff (c : Char) : isPosDigit c = true ↔ 49 ≤ c.toNat ∧ c.toNat ≤ 57 := by
  simp only [isPosDigit, Bool.and_eq_true, decide_eq_true_eq]
  rw [charLe_iff, charLe_iff]
  exact Iff.rfl

theorem len_eq_four {α : Type} {l : List α} (h : l.length = 4) :
    ∃ a b c d, l = [a, b, c, d] := by
  rcases l with _ | ⟨a, _ | ⟨b, _ | ⟨c, _ | ⟨d, rest⟩⟩⟩⟩ <;> simp_all

theorem amendedYear_length {year : List Char} (h : amendedYear year) :
    year.length = 4 := by
  rcases h with rfl | ⟨h, -, -⟩
  · rfl
  · exact h

/-- The year alternative `(1999|2\d{3})` holds exactly on the amended year
    form. -/
theorem yearAlt_iff (year : List Char) :
    yearAlt year = true ↔ amendedYear year := by
  unfold yearAlt
  split
  · simp [amendedYear]
  · rename_i a b c
    simp only [Bool.and_eq_true]
    constructor
    · rintro ⟨⟨ha, hb⟩, hc⟩
      refine .inr ⟨rfl, rfl, ?_⟩
      intro x hx
      simp only [List.tail_cons, List.mem_cons, List.not_mem_nil, or_false] at hx
      rcases hx with rfl | rfl | rfl
      · exact ha
      · exact hb
      · exact hc
    · rintro (h | ⟨-, -, h⟩)
      · injection h with h1 h2
        exact absurd h1 (by decide)
      · exact ⟨⟨h a (by simp), h b (by simp)⟩, h c (by simp)⟩
  · rename_i hne1 hne2
    refine iff_of_false (by simp) ?_
    rintro (rfl | ⟨hlen, hhead, -⟩)
    · exact hne1 rfl
    · obtain ⟨a, b, c, d, rfl⟩ := len_eq_four hlen
      simp only [List.head?_cons, Option.some.injEq] at hhead
      subst hhead
      exact hne2 b c d rfl

/-- The sequence alternative `(0\d{2}[1-9]|[1-9]\d{3,})` holds exactly on
    the amended sequence form. -/
theorem seqAlt_iff (seq : List Char) :
    seqAlt seq = true ↔ amendedSeq seq := by
  unfold seqAlt
  split
  · rename_i a b c
    simp only [Bool.and_eq_true]
    constructor
    · rintro ⟨⟨ha, hb⟩, hc⟩
      refine .inl ⟨rfl, rfl, ?_, c, rfl, hc⟩
      intro x hx
      rw [show ((['0', a, b, c] : List Char).drop 1).take 2 = [a, b] from rfl] at hx
      simp only [List.mem_cons, List.not_mem_nil, or_false] at hx
      rcases hx with rfl | rfl
      · exact ha
      · exact hb
    · rintro (⟨-, -, hmid, x, hlast, hx⟩ | ⟨⟨x, hx, hpos⟩, -, -⟩)
      · have hxc : x = c := by
          rw [show (['0', a, b, c] : List Char).getLast? = some c from rfl] at hlast
          exact (Option.some.injEq _ _ ▸ hlast).symm
        subst hxc
        exact ⟨⟨hmid a (by simp), hmid b (by simp)⟩, hx⟩
      · simp only [List.head?_cons, Option.some.injEq] at hx
        subst hx
        exact absurd hpos (by decide)
  · rename_i c rest hne
    simp only [Bool.and_eq_true, decide_eq_true_eq, List.all_eq_true]
    constructor
    · rintro ⟨⟨hpos, hlen⟩, hall⟩
      exact .inr ⟨⟨c, rfl, hpos⟩, by simp; omega, by simpa using hall⟩
    · rintro (⟨hlen, hhead, -, -⟩ | ⟨⟨x, hx, hpos⟩, hlen, hall⟩)
      · simp only [List.head?_cons, Option.some.injEq] at hhead
        subst hhead
        simp only [List.length_cons] at hlen
        obtain ⟨x, y, z, rfl⟩ := List.length_eq_three.mp (by omega : rest.length = 3)
        exact (hne x y z rfl rfl).elim
      · simp only [List.head?_cons, Option.some.injEq] at hx
        subst hx
        simp only [List.length_cons] at hlen
        exact ⟨⟨hpos, by omega⟩, by simpa using hall⟩
  · refine iff_of_false (by simp) ?_
    rintro (⟨hlen, -⟩ | ⟨-, hlen, -⟩) <;> simp at hlen

/-- Membership in the pattern body's language
    `CVE-(1999|2\d{3})-(0\d{2}[1-9]|[1-9]\d{3,})` is exactly the amended
    shape: both year alternatives are four characters long, so the split
    into year and sequence number is forced. -/
theorem cveCore_iff (cs : List Char) :
    cveCore cs = true ↔ amendedCveShape cs := by
  unfold cveCore
  split
  · rename_i y1 y2 y3 y4 seq
    simp only [Bool.and_eq_true, yearAlt_iff, seqAlt_iff]
    constructor
    · rintro ⟨hy, hs⟩
      exact ⟨[y1, y2, y3, y4], seq, rfl, hy, hs⟩
    · rintro ⟨year, seq2, heq, hy, hs⟩
      obtain ⟨a, b, c, d, rfl⟩ := len_eq_four (amendedYear_length hy)
      simp only [List.cons_append, List.nil_append, List.cons.injEq, true_and] at heq
      obtain ⟨rfl, rfl, rfl, rfl, rfl⟩ := heq
      exact ⟨hy, hs⟩
  · rename_i hne
    refine iff_of_false (by simp) ?_
    rintro ⟨year, seq, heq, hy, hs⟩
    obtain ⟨a, b, c, d, rfl⟩ := len_eq_four (amendedYear_length hy)
    exact hne a b c d seq (by simpa using heq)

/-- C4 amended: the classifier accepts exactly the strings of the form
    `CVE-YYYY-N` — with an optional single trailing newline, accepted by
    Python's `$` — where `YYYY` is the literal `1999`, or a `2` followed by
    three Unicode decimal digits (`\d` of a CPython `str` pattern matches
    category Nd, not only ASCII), and `N` is either a `0`, two Unicode
    decimal digits and one nonzero ASCII digit, or a nonzero ASCII digit
    followed by at least three Unicode decimal digits. -/
theorem cve_characterization_amended (s : String) :
    cveRegexMatch s = true ↔
      (amendedCveShape s.data ∨
        (s.data.getLast? = some '\n' ∧ amendedCveShape s.data.dropLast)) := by
  rw [cveRegexMatch, Bool.or_eq_true]
  apply or_congr (cveCore_iff s.data)
  constructor
  · intro h
    split at h
    · rename_i heq
      exact ⟨heq, (cveCore_iff _).mp h⟩
    · exact absurd h (by simp)
  · rintro ⟨hlast, hshape⟩
    rw [hlast]
    exact (cveCore_iff _).mpr hshape

/-! ## C8: the report file round-trips

Supporting lemmas leading to `report_file_roundtrip`: the serializer
(`json.dump(..., indent=4)`) and the parser (`json.loads`) are inverse on
every value a Python program can hold. -/

theorem hexDigVal_hexCh : ∀ k < 16, hexDigVal (hexCh k) = some k := by decide

theorem hex4Val_hexCh (n : Nat) (h : n < 65536) :
    hex4Val (hexCh (n / 4096 % 16)) (hexCh (n / 256 % 16))
      (hexCh (n / 16 % 16)) (hexCh (n % 16)) = some n := by
  unfold hex4Val
  rw [hexDigVal_hexCh _ (Nat.mod_lt _ (by omega)), hexDigVal_hexCh _ (Nat.mod_lt _ (by omega)),
    hexDigVal_hexCh _ (Nat.mod_lt _ (by omega)), hexDigVal_hexCh _ (Nat.mod_lt _ (by omega))]
  simp only [Option.some.injEq]
  omega

theorem decodeUEsc_hex4Chars (n : Nat) (hlt : n < 65536)
    (hv : n < 55296 \/ 57344 ≤ n) (rest : List Char) :
    decodeUEsc (hex4Chars n ++ rest) =
      some (Char.ofNat n, ⟨rest, by simp [hex4Chars]; omega⟩) := by
  simp only [hex4Chars, List.cons_append, List.nil_append]
  rw [decodeUEsc, hex4Val_hexCh n hlt]
  simp only [Bool.or_eq_true, decide_eq_true_eq]
  rw [if_pos hv]

theorem decodeUEsc_surrogate (n : Nat) (h1 : 65536 ≤ n) (h2 : n < 1114112) (rest : List Char) :
    decodeUEsc (hex4Chars (0xD800 + (n - 0x10000) / 0x400) ++
        ('\\' :: 'u' :: (hex4Chars (0xDC00 + (n - 0x10000) % 0x400) ++ rest))) =
      some (Char.ofNat n, ⟨rest, by simp [hex4Chars]; omega⟩) := by
  have hq : (n - 65536) / 1024 < 1024 := by omega
  have hr : (n - 65536) % 1024 < 1024 := Nat.mod_lt _ (by omega)
  simp only [hex4Chars, List.cons_append, List.nil_append, List.append_assoc]
  rw [decodeUEsc, hex4Val_hexCh _ (by omega)]
  simp only [Bool.or_eq_true, Bool.and_eq_true, decide_eq_true_eq]
  rw [if_neg (by omega), if_pos (by omega)]
  rw [hex4Val_hexCh _ (by omega)]
  simp only []
  rw [if_pos (by omega : 56320 ≤ 56320 + (n - 65536) % 1024 ∧ 56320 + (n - 65536) % 1024 < 57344)]
  have harg : 65536 + (55296 + (n - 65536) / 1024 - 55296) * 1024 +
      (56320 + (n - 65536) % 1024 - 56320) = n := by omega
  rw [harg]

theorem parseStrBody_escChar (c : Char) (acc rest : List Char) :
    parseStrBody acc (escChar c ++ rest) = parseStrBody (c :: acc) rest := by
  have hval : c.toNat < 55296 \/ (57343 < c.toNat /\ c.toNat < 1114112) := c.valid
  unfold escChar
  split_ifs with h1 h2 h3 h4 h5 h6 h7 h8 h9
  · subst h1; simp [parseStrBody, escControl]
  · subst h2; simp [parseStrBody, escControl]
  · subst h3; simp [parseStrBody, escControl]
  · subst h4; simp [parseStrBody, escControl]
  · subst h5; simp [parseStrBody, escControl]
  · have hc : c = Char.ofNat 8 := by rw [<- h6, Char.ofNat_toNat]
    rw [hc]; simp [parseStrBody, escControl]
  · have hc : c = Char.ofNat 12 := by rw [<- h7, Char.ofNat_toNat]
    rw [hc]; simp [parseStrBody, escControl]
  · simp only [List.cons_append, List.nil_append]
    simp only [Bool.and_eq_true, decide_eq_true_eq] at h8
    rw [parseStrBody.eq_def]
    simp only []
    rw [if_neg h1, if_neg h2, if_neg (by omega : ¬ c.toNat < 0x20)]
  · simp only [List.cons_append, List.nil_append]
    rw [parseStrBody.eq_def]
    simp only []
    simp only [if_true]
    rw [decodeUEsc_hex4Chars c.toNat (by omega) (by omega) rest]
    simp only []
    rw [Char.ofNat_toNat, if_neg (by decide : ¬ ('\\' : Char) = '\"')]
  · simp only [List.cons_append, List.nil_append, List.append_assoc]
    rw [parseStrBody.eq_def]
    simp only []
    simp only [if_true]
    rw [decodeUEsc_surrogate c.toNat (by omega) (by omega) rest]
    simp only []
    rw [Char.ofNat_toNat, if_neg (by decide : ¬ ('\\' : Char) = '\"')]

theorem parseStrBody_flatMap : ∀ (cs acc rest : List Char),
    parseStrBody acc (cs.flatMap escChar ++ '\"' :: rest) =
      some (String.mk (acc.reverse ++ cs), rest) := by
  intro cs
  induction cs with
  | nil =>
    intro acc rest
    rw [List.flatMap_nil, List.nil_append, parseStrBody.eq_def]
    simp
  | cons c cs ih =>
    intro acc rest
    rw [List.flatMap_cons, List.append_assoc, parseStrBody_escChar, ih]
    simp

theorem parseStrBody_emitStr (s : String) (rest : List Char) :
    parseStrBody [] (s.data.flatMap escChar ++ '\"' :: rest) = some (s, rest) := by
  rw [parseStrBody_flatMap]
  simp only [List.reverse_nil, List.nil_append]

theorem digitCh_spec : ∀ k < 10, isDigitCh (digitCh k) = true /\ (digitCh k).toNat = 48 + k := by
  decide

theorem natChars_ne_nil (n : Nat) : natChars n ≠ [] := by
  rw [natChars]
  split_ifs <;> simp

theorem natChars_digits (n : Nat) : ∀ c ∈ natChars n, isDigitCh c = true := by
  induction n using Nat.strongRecOn with
  | _ n ih =>
    rw [natChars]
    split_ifs with h
    · intro c hc
      rw [List.mem_singleton] at hc
      subst hc
      exact (digitCh_spec n h).1
    · intro c hc
      rw [List.mem_append] at hc
      rcases hc with hc | hc
      · exact ih (n / 10) (by omega) c hc
      · rw [List.mem_singleton] at hc
        subst hc
        exact (digitCh_spec (n % 10) (by omega)).1

theorem digitsVal_append_one (xs : List Char) (c : Char) :
    digitsVal (xs ++ [c]) = digitsVal xs * 10 + (c.toNat - 48) := by
  simp [digitsVal, List.foldl_append]

theorem digitsVal_natChars (n : Nat) : digitsVal (natChars n) = n := by
  induction n using Nat.strongRecOn with
  | _ n ih =>
    rw [natChars]
    split_ifs with h
    · simp [digitsVal, (digitCh_spec n h).2]
    · rw [digitsVal_append_one, ih (n / 10) (by omega), (digitCh_spec (n % 10) (by omega)).2]
      omega

theorem takeDigs_nil : takeDigs [] = ([], []) := rfl

theorem takeDigs_stop (cs : List Char)
    (h : ∀ c, cs.head? = some c → isDigitCh c = false) : takeDigs cs = ([], cs) := by
  cases cs with
  | nil => rfl
  | cons c t => simp [takeDigs, h c rfl]

theorem takeDigs_run : ∀ (ds rest : List Char), (∀ c ∈ ds, isDigitCh c = true) →
    takeDigs rest = ([], rest) → takeDigs (ds ++ rest) = (ds, rest) := by
  intro ds
  induction ds with
  | nil => intro rest _ h; simpa using h
  | cons c t ih =>
    intro rest hds hrest
    have hc : isDigitCh c = true := hds c (by simp)
    have ht := ih rest (fun x hx => hds x (by simp [hx])) hrest
    simp [takeDigs, hc, ht]

theorem digit_ne_minus (c : Char) (h : isDigitCh c = true) : ¬ c = '-' := by
  rw [isDigitCh_iff] at h
  rw [charEq_iff]
  intro hh
  rw [show ('-' : Char).toNat = 45 from rfl] at hh
  omega

theorem parseIntTok_intChars (i : Int) (rest : List Char)
    (h : ∀ c, rest.head? = some c → isDigitCh c = false) :
    parseIntTok (intChars i ++ rest) = some (i, rest) := by
  have hrun := takeDigs_run (natChars i.natAbs) rest (natChars_digits _) (takeDigs_stop rest h)
  obtain ⟨c0, t0, h0⟩ := List.exists_cons_of_ne_nil (natChars_ne_nil i.natAbs)
  have hval : digitsVal (natChars i.natAbs) = i.natAbs := digitsVal_natChars _
  unfold intChars
  split_ifs with hneg
  · simp only [List.cons_append]
    rw [parseIntTok]
    rw [if_pos rfl, hrun, h0]
    simp only []
    rw [<- h0, hval]
    have hcast : -(i.natAbs : Int) = i := by omega
    rw [hcast]
  · rw [h0] at hrun ⊢
    simp only [List.cons_append] at hrun ⊢
    rw [parseIntTok]
    rw [if_neg (digit_ne_minus c0 (natChars_digits _ c0 (by rw [h0]; simp)))]
    rw [hrun]
    simp only []
    rw [<- h0, hval]
    have hcast : (i.natAbs : Int) = i := by omega
    rw [hcast]

theorem dropWs_cons_ws (c : Char) (x : List Char) (h : isWsCh c = true) :
    dropWs (c :: x) = dropWs x := by simp [dropWs, h]

theorem dropWs_cons_not (c : Char) (x : List Char) (h : isWsCh c = false) :
    dropWs (c :: x) = c :: x := by simp [dropWs, h]

theorem dropWs_append (u : List Char) (x : List Char)
    (h : ∀ c ∈ u, isWsCh c = true) : dropWs (u ++ x) = dropWs x := by
  induction u with
  | nil => rfl
  | cons c t ih =>
    rw [List.cons_append, dropWs_cons_ws c _ (h c (by simp)), ih (fun d hd => h d (by simp [hd]))]

theorem pad_ws (n : Nat) : ∀ c ∈ pad n, isWsCh c = true := by
  intro c hc
  rw [pad, List.mem_replicate] at hc
  rw [hc.2]
  rfl

theorem parseVal_wsPrefix (fuel : Nat) (u x : List Char) (h : ∀ c ∈ u, isWsCh c = true) :
    parseVal fuel (u ++ x) = parseVal fuel x := by
  cases fuel with
  | zero => rfl
  | succ f => simp only [parseVal]; rw [dropWs_append u x h]

theorem parseItems_wsPrefix (fuel : Nat) (u x : List Char) (h : ∀ c ∈ u, isWsCh c = true) :
    parseItems fuel (u ++ x) = parseItems fuel x := by
  cases fuel with
  | zero => rfl
  | succ f => simp only [parseItems]; rw [parseVal_wsPrefix f u x h]

theorem parseMembers_wsPrefix (fuel : Nat) (u x : List Char) (h : ∀ c ∈ u, isWsCh c = true) :
    parseMembers fuel (u ++ x) = parseMembers fuel x := by
  cases fuel with
  | zero => rfl
  | succ f => simp only [parseMembers]; rw [dropWs_append u x h]

theorem digit_facts (c : Char) (h : isDigitCh c = true) :
    isWsCh c = false /\ ¬ c = ']' /\ ¬ c = '}' /\ ¬ c = ',' /\ ¬ c = 'n' /\
    ¬ c = 't' /\ ¬ c = 'f' /\ ¬ c = '\"' /\ ¬ c = '[' /\ ¬ c = '{' := by
  have hn := (isDigitCh_iff c).mp h
  refine ⟨?_, ?_, ?_, ?_, ?_, ?_, ?_, ?_, ?_, ?_⟩
  · simp only [isWsCh, Bool.or_eq_false_iff, decide_eq_false_iff_not]
    refine ⟨⟨⟨?_, ?_⟩, ?_⟩, ?_⟩ <;> (intro hh; rw [hh] at hn; exact absurd hn (by decide))
  all_goals intro hh
  all_goals rw [hh] at hn
  all_goals exact absurd hn (by decide)

theorem minus_facts :
    isWsCh '-' = false /\ ¬ ('-' : Char) = ']' /\ ¬ ('-' : Char) = '}' /\
    ¬ ('-' : Char) = ',' /\ ¬ ('-' : Char) = 'n' /\ ¬ ('-' : Char) = 't' /\
    ¬ ('-' : Char) = 'f' /\ ¬ ('-' : Char) = '\"' /\ ¬ ('-' : Char) = '[' /\
    ¬ ('-' : Char) = '{' := by decide

/-- Every emitted value starts with a nonempty run whose head is not
    whitespace and is none of the delimiters `]`, `}`, `,`. -/
theorem emitVal_head (ind : Nat) (v : Jval) :
    ∃ c t, emitVal ind v = c :: t /\ isWsCh c = false /\ ¬ c = ']' /\ ¬ c = '}' /\
      ¬ c = ',' := by
  cases v with
  | null => exact ⟨'n', _, rfl, by decide, by decide, by decide, by decide⟩
  | bool b =>
    cases b with
    | true => exact ⟨'t', _, rfl, by decide, by decide, by decide, by decide⟩
    | false => exact ⟨'f', _, rfl, by decide, by decide, by decide, by decide⟩
  | str s => exact ⟨'\"', _, rfl, by decide, by decide, by decide, by decide⟩
  | arr es =>
    cases es with
    | nil => exact ⟨'[', _, rfl, by decide, by decide, by decide, by decide⟩
    | cons x xs => exact ⟨'[', _, rfl, by decide, by decide, by decide, by decide⟩
  | obj ms =>
    cases ms with
    | nil => exact ⟨'{', _, rfl, by decide, by decide, by decide, by decide⟩
    | cons m ms => exact ⟨'{', _, rfl, by decide, by decide, by decide, by decide⟩
  | int n =>
    show ∃ c t, intChars n = c :: t /\ _
    unfold intChars
    split_ifs with hneg
    · exact ⟨'-', _, rfl, minus_facts.1, minus_facts.2.1, minus_facts.2.2.1,
        minus_facts.2.2.2.1⟩
    · obtain ⟨c0, t0, h0⟩ := List.exists_cons_of_ne_nil (natChars_ne_nil n.natAbs)
      have hd := natChars_digits n.natAbs c0 (by rw [h0]; simp)
      obtain ⟨hws, hbr, hbc, hcm, -⟩ := digit_facts c0 hd
      exact ⟨c0, t0, h0, hws, hbr, hbc, hcm⟩

theorem dictInsert_fresh (k : String) (v : Jval) :
    ∀ ms : List (String × Jval), (∀ kv ∈ ms, ¬ kv.1 = k) →
      dictInsert ms k v = ms ++ [(k, v)] := by
  intro ms
  induction ms with
  | nil => intro _; rfl
  | cons m rest ih =>
    intro h
    obtain ⟨k0, v0⟩ := m
    rw [dictInsert]
    rw [if_neg (h (k0, v0) (by simp))]
    rw [ih (fun kv hkv => h kv (by simp [hkv]))]
    simp

theorem dedupObj_go : ∀ (ms acc : List (String × Jval)),
    keysDistinct ms = true → (∀ kv ∈ ms, ∀ ac ∈ acc, ¬ ac.1 = kv.1) →
    ms.foldl (fun a kv => dictInsert a kv.1 kv.2) acc = acc ++ ms := by
  intro ms
  induction ms with
  | nil => intro acc _ _; simp
  | cons m rest ih =>
    intro acc hdist hfresh
    obtain ⟨k, v⟩ := m
    rw [List.foldl_cons]
    rw [keysDistinct, Bool.and_eq_true] at hdist
    rw [dictInsert_fresh k v acc (fun ac hac => hfresh (k, v) (by simp) ac hac)]
    rw [ih (acc ++ [(k, v)]) hdist.2 ?fresh]
    · simp
    case fresh =>
      intro kv hkv ac hac
      rw [List.mem_append] at hac
      rcases hac with hac | hac
      · exact hfresh kv (by simp [hkv]) ac hac
      · rw [List.mem_singleton] at hac
        subst hac
        have hne := List.all_eq_true.mp hdist.1 kv hkv
        intro hh
        exact (by simpa using hne : ¬ kv.1 = k) hh.symm

theorem dedupObj_distinct (ms : List (String × Jval)) (h : keysDistinct ms = true) :
    dedupObj ms = ms := by
  rw [dedupObj, dedupObj_go ms [] h (by simp)]
  rfl

theorem intChars_head (n : Int) :
    ∃ c t, intChars n = c :: t /\ (c = '-' \/ isDigitCh c = true) := by
  unfold intChars
  split_ifs with hneg
  · exact ⟨'-', _, rfl, .inl rfl⟩
  · obtain ⟨c0, t0, h0⟩ := List.exists_cons_of_ne_nil (natChars_ne_nil n.natAbs)
    exact ⟨c0, t0, h0, .inr (natChars_digits n.natAbs c0 (by rw [h0]; simp))⟩

theorem parseVal_quote (f : Nat) (r : List Char) :
    parseVal (f + 1) ('\"' :: r) =
      (parseStrBody [] r).map (fun sr => (Jval.str sr.1, sr.2)) := rfl

theorem parseVal_arr_step (f : Nat) (r : List Char) (c2 : Char) (r2 : List Char)
    (hd : dropWs r = c2 :: r2) (hne : ¬ c2 = ']') :
    parseVal (f + 1) ('[' :: r) =
      (parseItems f (c2 :: r2)).map (fun er => (Jval.arr er.1, er.2)) := by
  have hstep : parseVal (f + 1) ('[' :: r) =
      (match dropWs r with
       | [] => none
       | c2 :: r2 =>
         if c2 = ']' then some (.arr [], r2)
         else (parseItems f (c2 :: r2)).map (fun er => (.arr er.1, er.2))) := rfl
  rw [hstep]
  simp only [hd, if_neg hne]

theorem parseVal_obj_step (f : Nat) (r : List Char) (c2 : Char) (r2 : List Char)
    (hd : dropWs r = c2 :: r2) (hne : ¬ c2 = '}') :
    parseVal (f + 1) ('{' :: r) =
      (parseMembers f (c2 :: r2)).map (fun mr => (Jval.obj (dedupObj mr.1), mr.2)) := by
  have hstep : parseVal (f + 1) ('{' :: r) =
      (match dropWs r with
       | [] => none
       | c2 :: r2 =>
         if c2 = '}' then some (.obj [], r2)
         else (parseMembers f (c2 :: r2)).map (fun mr => (.obj (dedupObj mr.1), mr.2))) := rfl
  rw [hstep]
  simp only [hd, if_neg hne]

theorem parseItems_step (f : Nat) (cs : List Char) (v : Jval) (r : List Char)
    (h : parseVal f cs = some (v, r)) :
    parseItems (f + 1) cs =
      (match dropWs r with
       | [] => none
       | c :: r2 =>
         if c = ',' then (parseItems f r2).map (fun er => (v :: er.1, er.2))
         else if c = ']' then some ([v], r2) else none) := by
  have hstep : parseItems (f + 1) cs =
      (match parseVal f cs with
       | none => none
       | some (v, r) =>
         match dropWs r with
         | [] => none
         | c :: r2 =>
           if c = ',' then (parseItems f r2).map (fun er => (v :: er.1, er.2))
           else if c = ']' then some ([v], r2) else none) := rfl
  rw [hstep]
  simp only [h]

theorem parseMembers_step (f : Nat) (cs r : List Char) (k : String) (r1 : List Char)
    (hd : dropWs cs = '\"' :: r) (hk : parseStrBody [] r = some (k, r1)) :
    parseMembers (f + 1) cs =
      (match dropWs r1 with
       | [] => none
       | c2 :: r2 =>
         if c2 = ':' then
           match parseVal f r2 with
           | none => none
           | some (v, r3) =>
             match dropWs r3 with
             | [] => none
             | c3 :: r4 =>
               if c3 = ',' then (parseMembers f r4).map (fun mr => ((k, v) :: mr.1, mr.2))
               else if c3 = '}' then some ([(k, v)], r4) else none
         else none) := by
  have hstep : parseMembers (f + 1) cs =
      (match dropWs cs with
       | [] => none
       | c :: r =>
         if c = '\"' then
           match parseStrBody [] r with
           | none => none
           | some (k, r1) =>
             match dropWs r1 with
             | [] => none
             | c2 :: r2 =>
               if c2 = ':' then
                 match parseVal f r2 with
                 | none => none
                 | some (v, r3) =>
                   match dropWs r3 with
                   | [] => none
                   | c3 :: r4 =>
                     if c3 = ',' then (parseMembers f r4).map (fun mr => ((k, v) :: mr.1, mr.2))
                     else if c3 = '}' then some ([(k, v)], r4) else none
               else none
         else none) := rfl
  rw [hstep]
  simp only [hd, hk, eq_self_iff_true, if_true]

mutual
theorem rtVal : ∀ (v : Jval) (fuel ind : Nat) (rest : List Char),
    wfJ v = true → (emitVal ind v).length < fuel →
    (∀ c, rest.head? = some c → isDigitCh c = false) →
    parseVal fuel (emitVal ind v ++ rest) = some (v, rest)
  | .null, fuel, ind, rest, _, hf, _ => by
    cases fuel with
    | zero => simp [emitVal] at hf
    | succ f => simp [emitVal, parseVal, dropWs, isWsCh]
  | .bool true, fuel, ind, rest, _, hf, _ => by
    cases fuel with
    | zero => simp [emitVal] at hf
    | succ f => simp [emitVal, parseVal, dropWs, isWsCh]
  | .bool false, fuel, ind, rest, _, hf, _ => by
    cases fuel with
    | zero => simp [emitVal] at hf
    | succ f => simp [emitVal, parseVal, dropWs, isWsCh]
  | .int n, fuel, ind, rest, _, hf, hstop => by
    cases fuel with
    | zero => exact absurd hf (by omega)
    | succ f =>
      obtain ⟨c0, t0, h0, hc0⟩ := intChars_head n
      have hfacts : isWsCh c0 = false /\ ¬ c0 = 'n' /\ ¬ c0 = 't' /\ ¬ c0 = 'f' /\
          ¬ c0 = '\"' /\ ¬ c0 = '[' /\ ¬ c0 = '{' /\ (c0 = '-' || isDigitCh c0) = true := by
        rcases hc0 with rfl | hd
        · exact ⟨by decide, by decide, by decide, by decide, by decide, by decide,
            by decide, by decide⟩
        · obtain ⟨hws, -, -, -, hn, ht, hfc, hq, hbk, hbc⟩ := digit_facts c0 hd
          exact ⟨hws, hn, ht, hfc, hq, hbk, hbc, by simp [hd]⟩
      obtain ⟨hws, hn, ht, hfc, hq, hbk, hbc, hguard⟩ := hfacts
      have harg : emitVal ind (Jval.int n) ++ rest = c0 :: (t0 ++ rest) := by
        show intChars n ++ rest = _
        rw [h0, List.cons_append]
      have hstep : parseVal (f + 1) (c0 :: (t0 ++ rest)) =
          (match dropWs (c0 :: (t0 ++ rest)) with
           | [] => none
           | c :: r =>
             if c = 'n' then
               (match r with
                | 'u' :: 'l' :: 'l' :: r2 => some (.null, r2)
                | _ => none)
             else if c = 't' then
               (match r with
                | 'r' :: 'u' :: 'e' :: r2 => some (.bool true, r2)
                | _ => none)
             else if c = 'f' then
               (match r with
                | 'a' :: 'l' :: 's' :: 'e' :: r2 => some (.bool false, r2)
                | _ => none)
             else if c = '\"' then (parseStrBody [] r).map (fun sr => (.str sr.1, sr.2))
             else if c = '[' then
               (match dropWs r with
                | [] => none
                | c2 :: r2 =>
                  if c2 = ']' then some (.arr [], r2)
                  else (parseItems f (c2 :: r2)).map (fun er => (.arr er.1, er.2)))
             else if c = '{' then
               (match dropWs r with
                | [] => none
                | c2 :: r2 =>
                  if c2 = '}' then some (.obj [], r2)
                  else (parseMembers f (c2 :: r2)).map (fun mr => (.obj (dedupObj mr.1), mr.2)))
             else if c = '-' || isDigitCh c then
               (parseIntTok (c :: r)).map (fun nr => (.int nr.1, nr.2))
             else none) := rfl
      rw [harg, hstep, dropWs_cons_not c0 _ hws]
      simp only [if_neg hn, if_neg ht, if_neg hfc, if_neg hq, if_neg hbk, if_neg hbc,
        if_pos hguard]
      rw [show c0 :: (t0 ++ rest) = intChars n ++ rest from by rw [h0, List.cons_append]]
      rw [parseIntTok_intChars n rest hstop]
      rfl
  | .str s, fuel, ind, rest, _, hf, _ => by
    cases fuel with
    | zero => exact absurd hf (by omega)
    | succ f =>
      have harg : emitVal ind (Jval.str s) ++ rest =
          '\"' :: (s.data.flatMap escChar ++ ('\"' :: rest)) := by
        show emitStr s ++ rest = _
        rw [emitStr, List.cons_append, List.append_assoc]
        rfl
      rw [harg, parseVal_quote, parseStrBody_emitStr s rest]
      rfl
  | .arr [], fuel, ind, rest, _, hf, _ => by
    cases fuel with
    | zero => simp [emitVal] at hf
    | succ f => simp [emitVal, parseVal, dropWs, isWsCh]
  | .arr (x :: xs), fuel, ind, rest, hwf, hf, _ => by
    cases fuel with
    | zero => exact absurd hf (by omega)
    | succ f =>
      rw [wfJ] at hwf
      rw [wfJList, Bool.and_eq_true] at hwf
      have harg : emitVal ind (Jval.arr (x :: xs)) ++ rest =
          '[' :: ('\n' :: (pad (ind + 4) ++ (emitVal (ind + 4) x ++
            (emitArrTail (ind + 4) xs ++ ('\n' :: (pad ind ++ (']' :: rest))))))) := by
        rw [emitVal]
        simp [List.append_assoc]
      have hlen : (emitVal (ind + 4) x).length + (emitArrTail (ind + 4) xs).length + 1 < f := by
        rw [emitVal] at hf
        simp only [List.length_cons, List.length_append, pad, List.length_replicate] at hf
        omega
      have hkey := rtItems x xs f ind (ind + 4) rest hwf.1 hwf.2 hlen
      obtain ⟨c0, t0, h0, hws0, hbr0, -, -⟩ := emitVal_head (ind + 4) x
      have hdw : dropWs ('\n' :: (pad (ind + 4) ++ (emitVal (ind + 4) x ++
          (emitArrTail (ind + 4) xs ++ ('\n' :: (pad ind ++ (']' :: rest))))))) =
          c0 :: (t0 ++ (emitArrTail (ind + 4) xs ++ ('\n' :: (pad ind ++ (']' :: rest))))) := by
        rw [dropWs_cons_ws _ _ (by decide), dropWs_append _ _ (pad_ws (ind + 4))]
        rw [show emitVal (ind + 4) x ++ (emitArrTail (ind + 4) xs ++
            ('\n' :: (pad ind ++ (']' :: rest)))) =
          c0 :: (t0 ++ (emitArrTail (ind + 4) xs ++ ('\n' :: (pad ind ++ (']' :: rest)))))
          from by rw [h0, List.cons_append]]
        rw [dropWs_cons_not _ _ hws0]
      rw [harg, parseVal_arr_step f _ c0 _ hdw hbr0]
      rw [show c0 :: (t0 ++ (emitArrTail (ind + 4) xs ++ ('\n' :: (pad ind ++ (']' :: rest))))) =
        emitVal (ind + 4) x ++ (emitArrTail (ind + 4) xs ++ ('\n' :: (pad ind ++ (']' :: rest))))
        from by rw [h0, List.cons_append]]
      rw [hkey]
      rfl
  | .obj [], fuel, ind, rest, _, hf, _ => by
    cases fuel with
    | zero => simp [emitVal] at hf
    | succ f => simp [emitVal, parseVal, dropWs, isWsCh]
  | .obj (m :: ms), fuel, ind, rest, hwf, hf, _ => by
    cases fuel with
    | zero => exact absurd hf (by omega)
    | succ f =>
      rw [wfJ, Bool.and_eq_true] at hwf
      obtain ⟨hdist, hmemwf⟩ := hwf
      rw [wfJMembers, Bool.and_eq_true] at hmemwf
      have harg : emitVal ind (Jval.obj (m :: ms)) ++ rest =
          '{' :: ('\n' :: (pad (ind + 4) ++ (emitMember (ind + 4) m ++
            (emitObjTail (ind + 4) ms ++ ('\n' :: (pad ind ++ ('}' :: rest))))))) := by
        rw [emitVal]
        simp [List.append_assoc]
      have hlen : (emitMember (ind + 4) m).length + (emitObjTail (ind + 4) ms).length + 1 < f := by
        rw [emitVal] at hf
        simp only [List.length_cons, List.length_append, pad, List.length_replicate] at hf
        omega
      have hkey := rtMembers m ms f ind (ind + 4) rest hmemwf.1 hmemwf.2 hlen
      obtain ⟨k, v⟩ := m
      have hmhead : emitMember (ind + 4) (k, v) ++
          (emitObjTail (ind + 4) ms ++ ('\n' :: (pad ind ++ ('}' :: rest)))) =
          '\"' :: (k.data.flatMap escChar ++ ('\"' :: (':' :: (' ' :: (emitVal (ind + 4) v ++
            (emitObjTail (ind + 4) ms ++ ('\n' :: (pad ind ++ ('}' :: rest))))))))) := by
        rw [emitMember, emitStr]
        simp [List.append_assoc]
      have hdw : dropWs ('\n' :: (pad (ind + 4) ++ (emitMember (ind + 4) (k, v) ++
          (emitObjTail (ind + 4) ms ++ ('\n' :: (pad ind ++ ('}' :: rest))))))) =
          '\"' :: (k.data.flatMap escChar ++ ('\"' :: (':' :: (' ' :: (emitVal (ind + 4) v ++
            (emitObjTail (ind + 4) ms ++ ('\n' :: (pad ind ++ ('}' :: rest))))))))) := by
        rw [dropWs_cons_ws _ _ (by decide), dropWs_append _ _ (pad_ws (ind + 4))]
        rw [hmhead]
        rw [dropWs_cons_not _ _ (by decide)]
      rw [harg, parseVal_obj_step f _ _ _ hdw (by decide)]
      rw [<- hmhead, hkey]
      show some (Jval.obj (dedupObj ((k, v) :: ms)), rest) =
        some (Jval.obj ((k, v) :: ms), rest)
      rw [dedupObj_distinct ((k, v) :: ms) hdist]
  termination_by v _ _ _ _ _ _ => sizeOf v

theorem rtItems : ∀ (x : Jval) (xs : List Jval) (fuel ind ind2 : Nat) (rest : List Char),
    wfJ x = true → wfJList xs = true →
    (emitVal ind2 x).length + (emitArrTail ind2 xs).length + 1 < fuel →
    parseItems fuel (emitVal ind2 x ++
      (emitArrTail ind2 xs ++ ('\n' :: (pad ind ++ (']' :: rest))))) = some (x :: xs, rest)
  | x, [], fuel, ind, ind2, rest, hwfx, _, hf => by
    cases fuel with
    | zero => omega
    | succ f =>
      have hv := rtVal x f ind2 (emitArrTail ind2 [] ++ ('\n' :: (pad ind ++ (']' :: rest))))
        hwfx (by omega)
        (fun c hc => by rw [emitArrTail] at hc; cases hc; decide)
      rw [parseItems_step f _ x _ hv]
      rw [show emitArrTail ind2 [] ++ ('\n' :: (pad ind ++ (']' :: rest))) =
        '\n' :: (pad ind ++ (']' :: rest)) from by rw [emitArrTail]; rfl]
      rw [dropWs_cons_ws _ _ (by decide), dropWs_append _ _ (pad_ws ind),
        dropWs_cons_not _ _ (by decide)]
      show (if (']' : Char) = ',' then (parseItems f rest).map (fun er => (x :: er.1, er.2))
        else if (']' : Char) = ']' then some ([x], rest) else none) = some ([x], rest)
      rw [if_neg (by decide : ¬ (']' : Char) = ','), if_pos (rfl : (']' : Char) = ']')]
  | x, y :: ys, fuel, ind, ind2, rest, hwfx, hwfxs, hf => by
    cases fuel with
    | zero => omega
    | succ f =>
      rw [wfJList, Bool.and_eq_true] at hwfxs
      have htail : emitArrTail ind2 (y :: ys) ++ ('\n' :: (pad ind ++ (']' :: rest))) =
          ',' :: ('\n' :: (pad ind2 ++ (emitVal ind2 y ++
            (emitArrTail ind2 ys ++ ('\n' :: (pad ind ++ (']' :: rest))))))) := by
        rw [emitArrTail]
        simp [List.append_assoc]
      have hlens : (emitVal ind2 y).length + (emitArrTail ind2 ys).length + 1 < f := by
        rw [emitArrTail] at hf
        simp only [List.length_cons, List.length_append, pad, List.length_replicate] at hf
        omega
      have hv := rtVal x f ind2
        (emitArrTail ind2 (y :: ys) ++ ('\n' :: (pad ind ++ (']' :: rest)))) hwfx
        (by omega)
        (fun c hc => by rw [htail] at hc; cases hc; decide)
      have hkey := rtItems y ys f ind ind2 rest hwfxs.1 hwfxs.2 hlens
      rw [parseItems_step f _ x _ hv]
      rw [htail, dropWs_cons_not _ _ (by decide)]
      show (if (',' : Char) = ',' then
          (parseItems f ('\n' :: (pad ind2 ++ (emitVal ind2 y ++
            (emitArrTail ind2 ys ++ ('\n' :: (pad ind ++ (']' :: rest)))))))).map
            (fun er => (x :: er.1, er.2))
        else _) = some (x :: y :: ys, rest)
      rw [if_pos (rfl : (',' : Char) = ',')]
      rw [show ('\n' :: (pad ind2 ++ (emitVal ind2 y ++
          (emitArrTail ind2 ys ++ ('\n' :: (pad ind ++ (']' :: rest))))))) =
        ('\n' :: pad ind2) ++ (emitVal ind2 y ++
          (emitArrTail ind2 ys ++ ('\n' :: (pad ind ++ (']' :: rest))))) from by
        rw [List.cons_append]]
      rw [parseItems_wsPrefix f ('\n' :: pad ind2) _ (by
        intro c hc
        rcases List.mem_cons.mp hc with rfl | hc
        · rfl
        · exact pad_ws ind2 c hc)]
      rw [hkey]
      rfl
  termination_by x xs _ _ _ _ _ _ _ => sizeOf x + sizeOf xs

theorem rtMembers : ∀ (kv : String × Jval) (ms : List (String × Jval))
    (fuel ind ind2 : Nat) (rest : List Char),
    wfJ kv.2 = true → wfJMembers ms = true →
    (emitMember ind2 kv).length + (emitObjTail ind2 ms).length + 1 < fuel →
    parseMembers fuel (emitMember ind2 kv ++
      (emitObjTail ind2 ms ++ ('\n' :: (pad ind ++ ('}' :: rest))))) = some (kv :: ms, rest)
  | (k, v), ms, fuel, ind, ind2, rest, hwfv, hwfms, hf => by
    cases fuel with
    | zero => omega
    | succ f =>
      have harg : emitMember ind2 (k, v) ++
          (emitObjTail ind2 ms ++ ('\n' :: (pad ind ++ ('}' :: rest)))) =
          '\"' :: (k.data.flatMap escChar ++ ('\"' :: (':' :: (' ' :: (emitVal ind2 v ++
            (emitObjTail ind2 ms ++ ('\n' :: (pad ind ++ ('}' :: rest))))))))) := by
        rw [emitMember, emitStr]
        simp [List.append_assoc]
      have hdw : dropWs (emitMember ind2 (k, v) ++
          (emitObjTail ind2 ms ++ ('\n' :: (pad ind ++ ('}' :: rest))))) =
          '\"' :: (k.data.flatMap escChar ++ ('\"' :: (':' :: (' ' :: (emitVal ind2 v ++
            (emitObjTail ind2 ms ++ ('\n' :: (pad ind ++ ('}' :: rest))))))))) := by
        rw [harg, dropWs_cons_not _ _ (by decide)]
      have hk := parseStrBody_emitStr k (':' :: (' ' :: (emitVal ind2 v ++
        (emitObjTail ind2 ms ++ ('\n' :: (pad ind ++ ('}' :: rest)))))))
      rw [parseMembers_step f _ _ k _ hdw hk]
      rw [dropWs_cons_not _ _ (by decide)]
      show (if (':' : Char) = ':' then
          match parseVal f (' ' :: (emitVal ind2 v ++
            (emitObjTail ind2 ms ++ ('\n' :: (pad ind ++ ('}' :: rest)))))) with
          | none => none
          | some (v2, r3) =>
            match dropWs r3 with
            | [] => none
            | c3 :: r4 =>
              if c3 = ',' then (parseMembers f r4).map (fun mr => ((k, v2) :: mr.1, mr.2))
              else if c3 = '}' then some ([(k, v2)], r4) else none
        else none) = some ((k, v) :: ms, rest)
      rw [if_pos (rfl : (':' : Char) = ':')]
      rw [show (' ' :: (emitVal ind2 v ++
          (emitObjTail ind2 ms ++ ('\n' :: (pad ind ++ ('}' :: rest)))))) =
        [' '] ++ (emitVal ind2 v ++
          (emitObjTail ind2 ms ++ ('\n' :: (pad ind ++ ('}' :: rest))))) from rfl]
      rw [parseVal_wsPrefix f [' '] _ (by
        intro c hc
        rw [List.mem_singleton] at hc
        rw [hc]
        rfl)]
      have hstop : ∀ c, (emitObjTail ind2 ms ++
          ('\n' :: (pad ind ++ ('}' :: rest)))).head? = some c → isDigitCh c = false := by
        intro c hc
        cases ms with
        | nil => rw [emitObjTail] at hc; cases hc; decide
        | cons m2 ms2 => rw [emitObjTail] at hc; cases hc; decide
      have hv := rtVal v f ind2 _ hwfv (by
        rw [emitMember] at hf
        simp only [List.length_append, List.length_cons] at hf
        omega) hstop
      rw [hv]
      show (match dropWs (emitObjTail ind2 ms ++ ('\n' :: (pad ind ++ ('}' :: rest)))) with
        | [] => none
        | c3 :: r4 =>
          if c3 = ',' then (parseMembers f r4).map (fun mr => ((k, v) :: mr.1, mr.2))
          else if c3 = '}' then some ([(k, v)], r4) else none) = some ((k, v) :: ms, rest)
      cases ms with
      | nil =>
        rw [show emitObjTail ind2 [] ++ ('\n' :: (pad ind ++ ('}' :: rest))) =
          '\n' :: (pad ind ++ ('}' :: rest)) from by rw [emitObjTail]; rfl]
        rw [dropWs_cons_ws _ _ (by decide), dropWs_append _ _ (pad_ws ind),
          dropWs_cons_not _ _ (by decide)]
        show (if ('}' : Char) = ',' then
            (parseMembers f rest).map (fun mr => ((k, v) :: mr.1, mr.2))
          else if ('}' : Char) = '}' then some ([(k, v)], rest) else none) =
          some ([(k, v)], rest)
        rw [if_neg (by decide : ¬ ('}' : Char) = ','), if_pos (rfl : ('}' : Char) = '}')]
      | cons m2 ms2 =>
        rw [wfJMembers, Bool.and_eq_true] at hwfms
        have htail : emitObjTail ind2 (m2 :: ms2) ++ ('\n' :: (pad ind ++ ('}' :: rest))) =
            ',' :: ('\n' :: (pad ind2 ++ (emitMember ind2 m2 ++
              (emitObjTail ind2 ms2 ++ ('\n' :: (pad ind ++ ('}' :: rest))))))) := by
          rw [emitObjTail]
          simp [List.append_assoc]
        have hlens : (emitMember ind2 m2).length + (emitObjTail ind2 ms2).length + 1 < f := by
          rw [emitObjTail] at hf
          simp only [List.length_cons, List.length_append, pad, List.length_replicate] at hf
          omega
        have hkey := rtMembers m2 ms2 f ind ind2 rest hwfms.1 hwfms.2 hlens
        rw [htail, dropWs_cons_not _ _ (by decide)]
        show (if (',' : Char) = ',' then
            (parseMembers f ('\n' :: (pad ind2 ++ (emitMember ind2 m2 ++
              (emitObjTail ind2 ms2 ++ ('\n' :: (pad ind ++ ('}' :: rest)))))))).map
              (fun mr => ((k, v) :: mr.1, mr.2))
          else _) = some ((k, v) :: m2 :: ms2, rest)
        rw [if_pos (rfl : (',' : Char) = ',')]
        rw [show ('\n' :: (pad ind2 ++ (emitMember ind2 m2 ++
            (emitObjTail ind2 ms2 ++ ('\n' :: (pad ind ++ ('}' :: rest))))))) =
          ('\n' :: pad ind2) ++ (emitMember ind2 m2 ++
            (emitObjTail ind2 ms2 ++ ('\n' :: (pad ind ++ ('}' :: rest))))) from by
          rw [List.cons_append]]
        rw [parseMembers_wsPrefix f ('\n' :: pad ind2) _ (by
          intro c hc
          rcases List.mem_cons.mp hc with rfl | hc
          · rfl
          · exact pad_ws ind2 c hc)]
        rw [hkey]
        rfl
  termination_by kv ms _ _ _ _ _ _ _ => sizeOf kv + sizeOf ms
end

/-- Round trip of the serializer and the parser, for every value whose
    objects have distinct keys (every value a Python program can hold). -/
theorem parseJ_dumpJ (v : Jval) (h : wfJ v = true) : parseJ (dumpJ v) = some v := by
  have hv := rtVal v ((emitVal 0 v).length + 1) 0 [] h (by omega)
    (by intro c hc; simp at hc)
  rw [List.append_nil] at hv
  show (match parseVal ((emitVal 0 v).length + 1) (emitVal 0 v) with
    | some (v, r) => if dropWs r = [] then some v else none
    | none => none) = some v
  rw [hv]
  rfl

theorem reportOfJ_map (report : List (String × String)) :
    reportOfJ (report.map (fun kv => (kv.1, Jval.str kv.2))) = some report := by
  induction report with
  | nil => rfl
  | cons kv rest ih =>
    obtain ⟨k, v⟩ := kv
    simp [reportOfJ, ih]

theorem recordOfJ_recordToJ (r : Record) : recordOfJ (recordToJ r) = some r := by
  cases r with
  | plain i report => simp [recordToJ, recordOfJ, reportToJ, reportOfJ_map]
  | enriched i report feeds => simp [recordToJ, recordOfJ, reportToJ, reportOfJ_map]

theorem mapM_recordOfJ (records : List Record) :
    List.mapM recordOfJ (records.map recordToJ) = some records := by
  induction records with
  | nil => rfl
  | cons r rest ih =>
    rw [List.map_cons, List.mapM_cons, recordOfJ_recordToJ, ih]
    rfl

theorem decodeRecords_map (records : List Record) :
    decodeRecords (Jval.arr (records.map recordToJ)) = some records := by
  show List.mapM recordOfJ (records.map recordToJ) = some records
  exact mapM_recordOfJ records

theorem wfJMembers_strs (report : List (String × String)) :
    wfJMembers (report.map (fun kv => (kv.1, Jval.str kv.2))) = true := by
  induction report with
  | nil => rfl
  | cons kv rest ih => simp [wfJMembers, wfJ, ih]

theorem wfJ_recordToJ (r : Record) (h : wfRecord r = true) : wfJ (recordToJ r) = true := by
  cases r with
  | plain i report =>
    rw [wfRecord] at h
    simp [recordToJ, wfJ, reportToJ, keysDistinct, wfJMembers, wfJList, h, wfJMembers_strs]
  | enriched i report feeds =>
    rw [wfRecord, Bool.and_eq_true] at h
    simp [recordToJ, wfJ, reportToJ, keysDistinct, wfJMembers, wfJList, h.1, h.2,
      wfJMembers_strs]

theorem wfJ_reportArr (records : List Record) (h : ∀ r ∈ records, wfRecord r = true) :
    wfJ (Jval.arr (records.map recordToJ)) = true := by
  rw [wfJ]
  induction records with
  | nil => rfl
  | cons r rest ih =>
    rw [List.map_cons, wfJList, Bool.and_eq_true]
    exact ⟨wfJ_recordToJ r (h r (by simp)), ih (fun x hx => h x (by simp [hx]))⟩

/-- C8: `json.dump(data, rf, indent=4)` writes an empty array for an empty
    record list, and for every record list the written file parses back
    (`json.loads`) to exactly the same records in the same order.  The
    hypothesis — each record's `report` dict has distinct keys and its feed
    value is well-formed — is the embedding of the fact that Python dicts
    cannot carry duplicate keys. -/
theorem report_file_roundtrip :
    parseJ (reportFileContent []) = some (Jval.arr []) ∧
    ∀ records : List Record, (∀ r ∈ records, wfRecord r = true) →
      (parseJ (reportFileContent records)).bind decodeRecords = some records := by
  constructor
  · rfl
  · intro records h
    rw [reportFileContent, parseJ_dumpJ _ (wfJ_reportArr records h)]
    exact decodeRecords_map records

theorem report_file_roundtrip_witness :
    (∀ r ∈ [Record.enriched "CVE-2021-12345" [("title", "t"), ("severity", "High")]
              (Jval.obj [("id", Jval.str "x"), ("cvss", Jval.int 7)]),
            Record.plain "arn:finding1" [("description", "d")]], wfRecord r = true) ∧
    (parseJ (reportFileContent
        [Record.enriched "CVE-2021-12345" [("title", "t"), ("severity", "High")]
          (Jval.obj [("id", Jval.str "x"), ("cvss", Jval.int 7)]),
         Record.plain "arn:finding1" [("description", "d")]])).bind decodeRecords =
      some [Record.enriched "CVE-2021-12345" [("title", "t"), ("severity", "High")]
              (Jval.obj [("id", Jval.str "x"), ("cvss", Jval.int 7)]),
            Record.plain "arn:finding1" [("description", "d")]] :=
  ⟨by decide, report_file_roundtrip.2 _ (by decide)⟩
